import Mathlib

/-!
Verification of the lexical-pool builder in `app/routers/lang_pool.py`
against its natural-language specification.

Python strings are modelled as `List Char`.  The Unicode-dependent pieces of
the standard library (`str.lower`, `str.upper`, `unicodedata.normalize("NFD")`,
combining-mark categories) are modelled faithfully on the full ASCII range and
on a representative set of accented Latin characters (é, ü, ç and their upper
case); all other characters behave as identity, which matches Python on every
character without case mapping or canonical decomposition.
-/

namespace LangPool

/-- Characters matched by Python's `\s` (ASCII range) and by `str.strip()`. -/
def isWS (c : Char) : Bool :=
  c = ' ' || c = '\t' || c = '\n' || c = '\r' || c = Char.ofNat 11 || c = Char.ofNat 12

/-- The combining acute accent U+0301. -/
def combAcute : Char := Char.ofNat 0x301

/-- The combining diaeresis U+0308. -/
def combDiaeresis : Char := Char.ofNat 0x308

/-- The combining cedilla U+0327. -/
def combCedilla : Char := Char.ofNat 0x327

/-- Model of `str.lower()` per character: full ASCII case mapping plus the
accented letters in the modelled alphabet; identity elsewhere. -/
def lowerChar (c : Char) : Char :=
  if c = 'É' then 'é' else
  if c = 'Ü' then 'ü' else
  if c = 'Ç' then 'ç' else
  if 65 ≤ c.toNat ∧ c.toNat ≤ 90 then Char.ofNat (c.toNat + 32) else c

/-- Model of `str.upper()` per character: full ASCII case mapping plus the
accented letters in the modelled alphabet; identity elsewhere. -/
def upperChar (c : Char) : Char :=
  if c = 'é' then 'É' else
  if c = 'ü' then 'Ü' else
  if c = 'ç' then 'Ç' else
  if 97 ≤ c.toNat ∧ c.toNat ≤ 122 then Char.ofNat (c.toNat - 32) else c

/-- Model of `unicodedata.normalize("NFD", ·)` per character: canonical
decomposition for the modelled accented letters, identity elsewhere. -/
def nfdChar (c : Char) : List Char :=
  if c = 'é' then ['e', combAcute] else
  if c = 'ü' then ['u', combDiaeresis] else
  if c = 'ç' then ['c', combCedilla] else [c]

/-- Model of `unicodedata.category(ch) == "Mn"` for the modelled alphabet. -/
def isMn (c : Char) : Bool :=
  c = combAcute || c = combDiaeresis || c = combCedilla

/-- The punctuation class removed by `norm`: `[.,!?;:()"']`. -/
def isPunct (c : Char) : Bool :=
  c = '.' || c = ',' || c = '!' || c = '?' || c = ';' || c = ':' ||
  c = '(' || c = ')' || c = '"' || c = Char.ofNat 39

/-- Model of `str.strip()`: drop leading and trailing whitespace. -/
def pyStrip (l : List Char) : List Char :=
  ((l.dropWhile isWS).reverse.dropWhile isWS).reverse

/-- Model of `str.lower()`. -/
def pyLower (l : List Char) : List Char := l.map lowerChar

/-- Model of `str.upper()`. -/
def pyUpper (l : List Char) : List Char := l.map upperChar

/-- Worker for `re.sub(r"\s+", " ", ·)`: the flag records whether the previous
character was whitespace (and has therefore already emitted the single space
standing for the current run). -/
def collapseAux : Bool → List Char → List Char
  | _, [] => []
  | true, c :: cs =>
    if isWS c then collapseAux true cs else c :: collapseAux false cs
  | false, c :: cs =>
    if isWS c then ' ' :: collapseAux true cs else c :: collapseAux false cs

/-- Model of `re.sub(r"\s+", " ", ·)`: every maximal whitespace run becomes a
single space. -/
def collapseWS (l : List Char) : List Char := collapseAux false l

/-- `norm` from `lang_pool.py`: strip, lower-case, NFD with removal of
combining marks, removal of the punctuation class, collapse of whitespace
runs.  Note the result is not stripped again at the end. -/
def norm (s : List Char) : List Char :=
  let s1 := pyStrip s
  let s2 := pyLower s1
  let s3 := (s2.flatMap nfdChar).filter (fun c => !(isMn c))
  let s4 := s3.filter (fun c => !(isPunct c))
  collapseWS s4

/-! ### Character-level facts used for the normalizer -/

theorem char_ofNat_toNat {n : Nat} (h : n < 0xd800) : (Char.ofNat n).toNat = n := by
  have hv : n.isValidChar := Or.inl h
  rw [Char.ofNat, dif_pos hv]
  rfl

theorem ne_of_toNat_ne {c d : Char} (h : c.toNat ≠ d.toNat) : c ≠ d :=
  fun he => h (congrArg Char.toNat he)

theorem lowerChar_idem (c : Char) : lowerChar (lowerChar c) = lowerChar c := by
  by_cases h1 : c = 'É'
  · subst h1; decide
  by_cases h2 : c = 'Ü'
  · subst h2; decide
  by_cases h3 : c = 'Ç'
  · subst h3; decide
  by_cases h4 : 65 ≤ c.toNat ∧ c.toNat ≤ 90
  · have hc : lowerChar c = Char.ofNat (c.toNat + 32) := by
      simp [lowerChar, h1, h2, h3, h4]
    have ht : (Char.ofNat (c.toNat + 32)).toNat = c.toNat + 32 :=
      char_ofNat_toNat (by omega)
    rw [hc]
    have e1 : Char.ofNat (c.toNat + 32) ≠ 'É' := by
      apply ne_of_toNat_ne
      rw [ht, show Char.toNat 'É' = 201 from rfl]
      omega
    have e2 : Char.ofNat (c.toNat + 32) ≠ 'Ü' := by
      apply ne_of_toNat_ne
      rw [ht, show Char.toNat 'Ü' = 220 from rfl]
      omega
    have e3 : Char.ofNat (c.toNat + 32) ≠ 'Ç' := by
      apply ne_of_toNat_ne
      rw [ht, show Char.toNat 'Ç' = 199 from rfl]
      omega
    have e4 : ¬(65 ≤ (Char.ofNat (c.toNat + 32)).toNat ∧
        (Char.ofNat (c.toNat + 32)).toNat ≤ 90) := by
      rw [ht]
      omega
    simp [lowerChar, e1, e2, e3, e4]
  · simp [lowerChar, h1, h2, h3, h4]

/-- Every character produced by decomposing a character is itself fully
decomposed. -/
theorem nfdChar_of_mem_nfdChar {c d : Char} (h : d ∈ nfdChar c) : nfdChar d = [d] := by
  by_cases h1 : c = 'é'
  · subst h1
    simp [nfdChar] at h
    rcases h with h | h <;> subst h <;> decide
  by_cases h2 : c = 'ü'
  · subst h2
    simp [nfdChar] at h
    rcases h with h | h <;> subst h <;> decide
  by_cases h3 : c = 'ç'
  · subst h3
    simp [nfdChar] at h
    rcases h with h | h <;> subst h <;> decide
  · simp [nfdChar, h1, h2, h3] at h ⊢
    subst h
    simp [nfdChar, h1, h2, h3]

/-- Decomposing a lower-case-fixed character yields lower-case-fixed
characters. -/
theorem lowerChar_of_mem_nfdChar {c d : Char} (hlc : lowerChar c = c)
    (h : d ∈ nfdChar c) : lowerChar d = d := by
  by_cases h1 : c = 'é'
  · subst h1
    simp [nfdChar] at h
    rcases h with h | h <;> subst h <;> decide
  by_cases h2 : c = 'ü'
  · subst h2
    simp [nfdChar] at h
    rcases h with h | h <;> subst h <;> decide
  by_cases h3 : c = 'ç'
  · subst h3
    simp [nfdChar] at h
    rcases h with h | h <;> subst h <;> decide
  · simp [nfdChar, h1, h2, h3] at h
    subst h
    exact hlc

/-! ### Facts about whitespace collapsing and stripping -/

/-- No two consecutive characters of the list are both whitespace. -/
def NoAdjWS (l : List Char) : Prop :=
  l.Chain' (fun c d => ¬(isWS c = true ∧ isWS d = true))

theorem mem_collapseAux {c : Char} : ∀ (l : List Char) (b : Bool),
    c ∈ collapseAux b l → c = ' ' ∨ (c ∈ l ∧ isWS c = false)
  | [], b, h => by cases b <;> simp [collapseAux] at h
  | x :: xs, b, h => by
    by_cases hx : isWS x = true
    · cases b with
      | true =>
        rw [collapseAux, if_pos hx] at h
        rcases mem_collapseAux xs true h with h' | ⟨h', hc2⟩
        · exact Or.inl h'
        · exact Or.inr ⟨List.mem_cons_of_mem _ h', hc2⟩
      | false =>
        rw [collapseAux, if_pos hx] at h
        rcases List.mem_cons.1 h with h' | h'
        · exact Or.inl h'
        · rcases mem_collapseAux xs true h' with hc2 | ⟨hc2, hc3⟩
          · exact Or.inl hc2
          · exact Or.inr ⟨List.mem_cons_of_mem _ hc2, hc3⟩
    · cases b with
      | true =>
        rw [collapseAux, if_neg hx] at h
        rcases List.mem_cons.1 h with h' | h'
        · subst h'
          exact Or.inr ⟨List.mem_cons_self _ _, by simpa using hx⟩
        · rcases mem_collapseAux xs false h' with hc2 | ⟨hc2, hc3⟩
          · exact Or.inl hc2
          · exact Or.inr ⟨List.mem_cons_of_mem _ hc2, hc3⟩
      | false =>
        rw [collapseAux, if_neg hx] at h
        rcases List.mem_cons.1 h with h' | h'
        · subst h'
          exact Or.inr ⟨List.mem_cons_self _ _, by simpa using hx⟩
        · rcases mem_collapseAux xs false h' with hc2 | ⟨hc2, hc3⟩
          · exact Or.inl hc2
          · exact Or.inr ⟨List.mem_cons_of_mem _ hc2, hc3⟩

/-- In skip mode the collapser never emits a leading whitespace character. -/
theorem head_collapseAux_true {c : Char} : ∀ (l : List Char),
    (collapseAux true l).head? = some c → isWS c = false
  | [], h => by simp [collapseAux] at h
  | x :: xs, h => by
    by_cases hx : isWS x = true
    · rw [collapseAux, if_pos hx] at h
      exact head_collapseAux_true xs h
    · rw [collapseAux, if_neg hx] at h
      simp only [List.head?_cons, Option.some.injEq] at h
      subst h
      simpa using hx

theorem noAdjWS_collapseAux : ∀ (l : List Char) (b : Bool), NoAdjWS (collapseAux b l)
  | [], b => by cases b <;> simp [collapseAux, NoAdjWS]
  | x :: xs, b => by
    by_cases hx : isWS x = true
    · cases b with
      | true =>
        rw [collapseAux, if_pos hx]
        exact noAdjWS_collapseAux xs true
      | false =>
        rw [collapseAux, if_pos hx]
        refine List.Chain'.cons' (noAdjWS_collapseAux xs true) ?_
        intro y hy
        have := head_collapseAux_true xs hy
        simp [this]
    · cases b with
      | true =>
        rw [collapseAux, if_neg hx]
        refine List.Chain'.cons' (noAdjWS_collapseAux xs false) ?_
        intro y _
        simp [hx]
      | false =>
        rw [collapseAux, if_neg hx]
        refine List.Chain'.cons' (noAdjWS_collapseAux xs false) ?_
        intro y _
        simp [hx]

theorem collapseAux_true_eq_false (l : List Char)
    (h : l = [] ∨ ∃ c cs, l = c :: cs ∧ isWS c = false) :
    collapseAux true l = collapseAux false l := by
  rcases h with h | ⟨c, cs, h, hc⟩
  · subst h; rfl
  · subst h
    simp [collapseAux, hc]

/-- The collapser fixes lists whose whitespace is already in normal form:
every whitespace character is a plain space and no two are adjacent. -/
theorem collapseWS_fixed : ∀ (l : List Char),
    (∀ c ∈ l, isWS c = true → c = ' ') → NoAdjWS l → collapseWS l = l
  | [], _, _ => rfl
  | x :: xs, hsp, hadj => by
    have hadj' : NoAdjWS xs := hadj.tail
    have hsp' : ∀ c ∈ xs, isWS c = true → c = ' ' :=
      fun c hc => hsp c (List.mem_cons_of_mem _ hc)
    by_cases hx : isWS x = true
    · have hx' : x = ' ' := hsp x (List.mem_cons_self _ _) hx
      subst hx'
      have hhead : xs = [] ∨ ∃ c cs, xs = c :: cs ∧ isWS c = false := by
        cases xs with
        | nil => exact Or.inl rfl
        | cons y ys =>
          refine Or.inr ⟨y, ys, rfl, ?_⟩
          have := List.Chain'.rel_head (l := ys) hadj
          simp only [hx, true_and] at this
          simpa using this
      show collapseAux false (' ' :: xs) = ' ' :: xs
      rw [collapseAux, if_pos hx, collapseAux_true_eq_false xs hhead]
      show ' ' :: collapseWS xs = ' ' :: xs
      rw [collapseWS_fixed xs hsp' hadj']
    · show collapseAux false (x :: xs) = x :: xs
      rw [collapseAux, if_neg hx]
      show x :: collapseWS xs = x :: xs
      rw [collapseWS_fixed xs hsp' hadj']

theorem mem_pyStrip {c : Char} {l : List Char} (h : c ∈ pyStrip l) : c ∈ l := by
  unfold pyStrip at h
  rw [List.mem_reverse] at h
  have h1 := (List.dropWhile_sublist (l := (l.dropWhile isWS).reverse) isWS).subset h
  rw [List.mem_reverse] at h1
  exact (List.dropWhile_sublist (l := l) isWS).subset h1

theorem noAdjWS_pyStrip {l : List Char} (h : NoAdjWS l) : NoAdjWS (pyStrip l) := by
  have hsym : ∀ {m : List Char}, NoAdjWS m → NoAdjWS m.reverse := by
    intro m hm
    rw [NoAdjWS, List.chain'_reverse]
    exact hm.imp fun a b hab => fun ⟨x, y⟩ => hab ⟨y, x⟩
  have h1 : NoAdjWS (l.dropWhile isWS) := h.suffix (List.dropWhile_suffix _)
  have h2 : NoAdjWS ((l.dropWhile isWS).reverse.dropWhile isWS) :=
    (hsym h1).suffix (List.dropWhile_suffix _)
  exact hsym h2

theorem map_fixed {f : Char → Char} : ∀ {l : List Char}, (∀ c ∈ l, f c = c) → l.map f = l
  | [], _ => rfl
  | x :: xs, h => by
    rw [List.map_cons, h x (List.mem_cons_self _ _),
      map_fixed (fun c hc => h c (List.mem_cons_of_mem _ hc))]

theorem flatMap_fixed {f : Char → List Char} :
    ∀ {l : List Char}, (∀ c ∈ l, f c = [c]) → l.flatMap f = l
  | [], _ => rfl
  | x :: xs, h => by
    rw [List.flatMap_cons, h x (List.mem_cons_self _ _),
      flatMap_fixed (fun c hc => h c (List.mem_cons_of_mem _ hc))]
    rfl

/-- Every character of a normalized string is already lower-case-fixed, fully
decomposed, not a combining mark, not in the removed punctuation class, and is
a plain space whenever it is whitespace. -/
theorem mem_norm {c : Char} {s : List Char} (h : c ∈ norm s) :
    lowerChar c = c ∧ nfdChar c = [c] ∧ isMn c = false ∧ isPunct c = false ∧
      (isWS c = true → c = ' ') := by
  simp only [norm] at h
  rcases mem_collapseAux _ _ h with h' | ⟨h', hws⟩
  · subst h'
    refine ⟨by decide, by decide, by decide, by decide, fun _ => rfl⟩
  · rcases List.mem_filter.1 h' with ⟨hc2, hpunct⟩
    rcases List.mem_filter.1 hc2 with ⟨hc3, hmn⟩
    rcases List.mem_flatMap.1 hc3 with ⟨d, hd, hcd⟩
    rcases List.mem_map.1 hd with ⟨e, _, hde⟩
    have hdfix : lowerChar d = d := by
      rw [← hde]
      exact lowerChar_idem e
    refine ⟨lowerChar_of_mem_nfdChar hdfix hcd, nfdChar_of_mem_nfdChar hcd, ?_, ?_, ?_⟩
    · simpa using hmn
    · simpa using hpunct
    · intro hw
      rw [hw] at hws
      cases hws

theorem noAdjWS_norm (s : List Char) : NoAdjWS (norm s) :=
  noAdjWS_collapseAux _ _

/-- C2 (amended): the normalizer applied twice agrees with stripping the
once-normalized string, `norm (norm x) = pyStrip (norm x)` for every `x`; so
`norm` is idempotent exactly on inputs whose normalization carries no leading
or trailing whitespace.  Punctuation removal can expose such whitespace (for
example `"a ."` normalizes to `"a "`), and the final whitespace collapse does
not strip it, which is the only failure of idempotence. -/
theorem norm_norm_eq_pyStrip_norm (s : List Char) :
    norm (norm s) = pyStrip (norm s) := by
  have hmem : ∀ c ∈ pyStrip (norm s),
      lowerChar c = c ∧ nfdChar c = [c] ∧ isMn c = false ∧ isPunct c = false ∧
        (isWS c = true → c = ' ') :=
    fun c hc => mem_norm (mem_pyStrip hc)
  have h1 : pyLower (pyStrip (norm s)) = pyStrip (norm s) :=
    map_fixed fun c hc => (hmem c hc).1
  have h2 : (pyStrip (norm s)).flatMap nfdChar = pyStrip (norm s) :=
    flatMap_fixed fun c hc => (hmem c hc).2.1
  have h3 : (pyStrip (norm s)).filter (fun c => !(isMn c)) = pyStrip (norm s) :=
    List.filter_eq_self.mpr fun c hc => by simp [(hmem c hc).2.2.1]
  have h4 : (pyStrip (norm s)).filter (fun c => !(isPunct c)) = pyStrip (norm s) :=
    List.filter_eq_self.mpr fun c hc => by simp [(hmem c hc).2.2.2.1]
  have h5 : collapseWS (pyStrip (norm s)) = pyStrip (norm s) :=
    collapseWS_fixed _ (fun c hc => (hmem c hc).2.2.2.2)
      (noAdjWS_pyStrip (noAdjWS_norm s))
  show collapseWS ((((pyLower (pyStrip (norm s))).flatMap nfdChar).filter
      (fun c => !(isMn c))).filter (fun c => !(isPunct c))) = pyStrip (norm s)
  rw [h1, h2, h3, h4, h5]

/-- C2 counterexample: `"a ."` strips to itself, loses its dot, and ends up as
`"a "` with a trailing space; a second application of `norm` strips that
space, so `norm` is not idempotent. -/
theorem norm_not_idempotent :
    norm (norm ['a', ' ', '.']) ≠ norm ['a', ' ', '.'] := by decide

/-! ### Model of JSON values and of `json.loads`

Python's parsed JSON values are modelled by `Json`.  Numbers keep their
source lexeme (this model does not distinguish `1.50` from `1.5`; no claim
depends on numeric value semantics).  Objects keep their members in source
order; lookup takes the last binding of a key, as a Python `dict` built from
duplicate keys would. -/

inductive Json where
  | null : Json
  | bool : Bool → Json
  | num : List Char → Json
  | str : List Char → Json
  | arr : List Json → Json
  | obj : List (List Char × Json) → Json

/-- `dict.get(k, default)` with Python's last-binding-wins semantics for
duplicate keys in a JSON object literal. -/
def objGet (members : List (List Char × Json)) (k : List Char) (dflt : Json) : Json :=
  match members.reverse.find? (fun m => m.1 = k) with
  | some m => m.2
  | none => dflt

/-- JSON's insignificant whitespace characters. -/
def jsonWS (c : Char) : Bool := c = ' ' || c = '\t' || c = '\n' || c = '\r'

def skipWS (l : List Char) : List Char := l.dropWhile jsonWS

def bslash : Char := Char.ofNat 92

def quoteChar : Char := Char.ofNat 39

def hexVal (c : Char) : Option Nat :=
  if 48 ≤ c.toNat ∧ c.toNat ≤ 57 then some (c.toNat - 48)
  else if 97 ≤ c.toNat ∧ c.toNat ≤ 102 then some (c.toNat - 87)
  else if 65 ≤ c.toNat ∧ c.toNat ≤ 70 then some (c.toNat - 55)
  else none

/-- Body of a JSON string literal after its opening quote: returns the decoded
content and the input after the closing quote.  Strict mode: raw control
characters are rejected; the supported escapes are those of the JSON grammar
(`\uXXXX` is decoded as a single scalar; surrogate pairing is outside this
model). -/
def parseStringBody : Nat → List Char → Option (List Char × List Char)
  | 0, _ => none
  | _, [] => none
  | fuel + 1, c :: cs =>
    if c = '"' then some ([], cs)
    else if c = bslash then
      match cs with
      | [] => none
      | e :: cs' =>
        let cont (d : Char) (rest : List Char) : Option (List Char × List Char) :=
          (parseStringBody fuel rest).map (fun p => (d :: p.1, p.2))
        if e = '"' then cont '"' cs'
        else if e = bslash then cont bslash cs'
        else if e = '/' then cont '/' cs'
        else if e = 'b' then cont (Char.ofNat 8) cs'
        else if e = 'f' then cont (Char.ofNat 12) cs'
        else if e = 'n' then cont '\n' cs'
        else if e = 'r' then cont '\r' cs'
        else if e = 't' then cont '\t' cs'
        else if e = 'u' then
          match cs' with
          | h1 :: h2 :: h3 :: h4 :: csr2 =>
            match hexVal h1, hexVal h2, hexVal h3, hexVal h4 with
            | some a, some b, some x, some y =>
              cont (Char.ofNat (((a * 16 + b) * 16 + x) * 16 + y)) csr2
            | _, _, _, _ => none
          | _ => none
        else none
    else if c.toNat < 32 then none
    else (parseStringBody fuel cs).map (fun p => (c :: p.1, p.2))

/-- The integer part of a JSON number: `0` or a nonzero digit followed by
digits. -/
def parseIntPart : List Char → Option (List Char × List Char)
  | [] => none
  | c :: cs =>
    if c = '0' then some (['0'], cs)
    else if c.isDigit then
      some (c :: cs.takeWhile Char.isDigit, cs.dropWhile Char.isDigit)
    else none

/-- A JSON number lexeme: `-? int frac? exp?`. -/
def parseNumber (l : List Char) : Option (List Char × List Char) :=
  let (sign, l1) : List Char × List Char :=
    match l with
    | '-' :: rest => (['-'], rest)
    | _ => ([], l)
  match parseIntPart l1 with
  | none => none
  | some (ip, l2) =>
    let (frac, l3) : List Char × List Char :=
      match l2 with
      | '.' :: rest =>
        if (rest.takeWhile Char.isDigit) = [] then ([], l2)
        else ('.' :: rest.takeWhile Char.isDigit, rest.dropWhile Char.isDigit)
      | _ => ([], l2)
    let (ex, l4) : List Char × List Char :=
      match l3 with
      | e :: rest =>
        if e = 'e' ∨ e = 'E' then
          let (es, rest') : List Char × List Char :=
            match rest with
            | s :: r => if s = '+' ∨ s = '-' then ([s], r) else ([], rest)
            | [] => ([], rest)
          if (rest'.takeWhile Char.isDigit) = [] then ([], l3)
          else (e :: (es ++ rest'.takeWhile Char.isDigit), rest'.dropWhile Char.isDigit)
        else ([], l3)
      | [] => ([], l3)
    if frac = [] ∧ ex = [] then some (sign ++ ip, l4)
    else some (sign ++ ip ++ frac ++ ex, l4)

mutual

/-- A JSON value at the head of the input (no leading whitespace). -/
def parseValue : Nat → List Char → Option (Json × List Char)
  | 0, _ => none
  | fuel + 1, l =>
    match l with
    | [] => none
    | '"' :: cs => (parseStringBody (fuel + 1) cs).map (fun p => (Json.str p.1, p.2))
    | '[' :: cs =>
      let cs' := skipWS cs
      match cs' with
      | ']' :: rest => some (Json.arr [], rest)
      | _ =>
        match parseElems fuel cs' with
        | some (xs, rest) => some (Json.arr xs, rest)
        | none => none
    | '{' :: cs =>
      let cs' := skipWS cs
      match cs' with
      | '}' :: rest => some (Json.obj [], rest)
      | _ =>
        match parseMembers fuel cs' with
        | some (ms, rest) => some (Json.obj ms, rest)
        | none => none
    | 't' :: 'r' :: 'u' :: 'e' :: cs => some (Json.bool true, cs)
    | 'f' :: 'a' :: 'l' :: 's' :: 'e' :: cs => some (Json.bool false, cs)
    | 'n' :: 'u' :: 'l' :: 'l' :: cs => some (Json.null, cs)
    | _ => (parseNumber l).map (fun p => (Json.num p.1, p.2))

/-- Comma-separated array elements up to the closing bracket. -/
def parseElems : Nat → List Char → Option (List Json × List Char)
  | 0, _ => none
  | fuel + 1, l =>
    match parseValue fuel l with
    | none => none
    | some (v, rest) =>
      match skipWS rest with
      | ',' :: rest' =>
        match parseElems fuel (skipWS rest') with
        | some (xs, restr2) => some (v :: xs, restr2)
        | none => none
      | ']' :: rest' => some ([v], rest')
      | _ => none

/-- Comma-separated object members up to the closing brace. -/
def parseMembers : Nat → List Char → Option (List (List Char × Json) × List Char)
  | 0, _ => none
  | fuel + 1, l =>
    match l with
    | '"' :: cs =>
      match parseStringBody (fuel + 1) cs with
      | none => none
      | some (k, rest) =>
        match skipWS rest with
        | ':' :: rest' =>
          match parseValue fuel (skipWS rest') with
          | none => none
          | some (v, restr2) =>
            match skipWS restr2 with
            | ',' :: rest3 =>
              match parseMembers fuel (skipWS rest3) with
              | some (ms, rest4) => some ((k, v) :: ms, rest4)
              | none => none
            | '}' :: rest3 => some ([(k, v)], rest3)
            | _ => none
        | _ => none
    | _ => none

end

/-- Model of `json.loads` (strict mode): a single JSON document surrounded by
optional whitespace, or a decode failure. -/
def json_loads (l : List Char) : Option Json :=
  let t := skipWS l
  match parseValue (t.length + 1) t with
  | none => none
  | some (v, rest) => if skipWS rest = [] then some v else none

/-! ### `extract_json_array` -/

/-- Exceptions surfaced by the modelled code paths. -/
inductive PyErr where
  | valueError : PyErr
  | jsonError : PyErr
  | http : Nat → String → PyErr
  | typeError : PyErr
deriving DecidableEq, Repr

deriving instance DecidableEq for Except

/-- Case-insensitive prefix match against a token given in lower case. -/
def icPrefix : List Char → List Char → Bool
  | [], _ => true
  | _ :: _, [] => false
  | t :: ts, c :: cs => (lowerChar c = t) && icPrefix ts cs

def fenceJsonTok : List Char := ['`', '`', '`', 'j', 's', 'o', 'n']

def fenceTok : List Char := ['`', '`', '`']

/-- Worker for fence removal; the fuel is an upper bound on the number of
characters consumed, so calling with the input's length makes the zero-fuel
branch unreachable. -/
def stripFencesAux : Nat → List Char → List Char
  | 0, l => l
  | _ + 1, [] => []
  | fuel + 1, c :: cs =>
    if icPrefix fenceJsonTok (c :: cs) then stripFencesAux fuel (cs.drop 6)
    else if icPrefix fenceTok (c :: cs) then stripFencesAux fuel (cs.drop 2)
    else c :: stripFencesAux fuel cs

/-- Model of `re.sub(r"```json|```", "", text, flags=re.I)`: leftmost,
non-overlapping matches, with the longer alternative preferred first. -/
def stripFences (l : List Char) : List Char := stripFencesAux l.length l

/-- `str.rfind`: index of the last element satisfying `p`. -/
def rfindIdx (l : List Char) (p : Char → Bool) : Option Nat :=
  match l.reverse.findIdx? p with
  | some i => some (l.length - 1 - i)
  | none => none

/-- `extract_json_array` from `lang_pool.py`: strip code fences and
surrounding whitespace, slice from the first `[` to the last `]`, parse the
slice as strict JSON, and on failure re-parse once with every single quote
replaced by a double quote; a second failure propagates. -/
def extract_json_array (text : List Char) : Except PyErr Json :=
  let t := pyStrip (stripFences text)
  match t.findIdx? (fun c => c = '['), rfindIdx t (fun c => c = ']') with
  | some a, some b =>
    if b ≤ a then .error .valueError
    else
      let sp := (t.take (b + 1)).drop a
      match json_loads sp with
      | some v => .ok v
      | none =>
        match json_loads (sp.map (fun c => if c = quoteChar then '"' else c)) with
        | some v => .ok v
        | none => .error .jsonError
  | _, _ => .error .valueError

/-- C9: after code-fence stripping, `extract_json_array` fails with an
extraction error when no `[...]` span lies between the first `[` and the last
`]`; otherwise the slice from the first `[` to the last `]` — a contiguous
piece of the stripped text beginning with `[` and ending with `]` — is parsed
as strict JSON, retried exactly once with every single quote replaced by a
double quote, and a remaining parse failure propagates as an error: an empty
array is never fabricated for unparseable input. -/
theorem extract_json_array_spec (text t : List Char)
    (ht : t = pyStrip (stripFences text)) :
    ((t.findIdx? (fun c => c = '[') = none ∨ rfindIdx t (fun c => c = ']') = none ∨
        (∃ a b, t.findIdx? (fun c => c = '[') = some a ∧
          rfindIdx t (fun c => c = ']') = some b ∧ b ≤ a)) →
      extract_json_array text = Except.error PyErr.valueError) ∧
    (∀ a b, t.findIdx? (fun c => c = '[') = some a →
      rfindIdx t (fun c => c = ']') = some b → a < b →
      (((t.take (b + 1)).drop a).head? = some '[' ∧
       ((t.take (b + 1)).drop a).getLast? = some ']' ∧
       ((t.take (b + 1)).drop a) <:+: t ∧
       extract_json_array text =
         (match json_loads ((t.take (b + 1)).drop a) with
          | some v => Except.ok v
          | none =>
            match json_loads (((t.take (b + 1)).drop a).map
                (fun c => if c = quoteChar then '"' else c)) with
            | some v => Except.ok v
            | none => Except.error PyErr.jsonError))) := by
  subst ht
  constructor
  · intro h
    rcases h with h | h | ⟨a, b, ha, hb, hba⟩
    · simp only [extract_json_array, h]
    · simp only [extract_json_array, h]
      cases hf : (pyStrip (stripFences text)).findIdx? (fun c => c = '[') <;> rfl
    · simp only [extract_json_array, ha, hb, if_pos hba]
  · intro a b ha hb hab
    have haspec := List.findIdx?_eq_some_iff_getElem.1 ha
    rcases haspec with ⟨haLt, haP, _⟩
    have htA : (pyStrip (stripFences text))[a] = '[' := by simpa using haP
    have hbspec : ∃ i, (pyStrip (stripFences text)).reverse.findIdx?
        (fun c => c = ']') = some i ∧ b = (pyStrip (stripFences text)).length - 1 - i := by
      unfold rfindIdx at hb
      cases hri : (pyStrip (stripFences text)).reverse.findIdx? (fun c => c = ']') with
      | none => rw [hri] at hb; cases hb
      | some i =>
        rw [hri] at hb
        exact ⟨i, rfl, (Option.some.inj hb).symm⟩
    rcases hbspec with ⟨i, hi, hbi⟩
    have hispec := List.findIdx?_eq_some_iff_getElem.1 hi
    rcases hispec with ⟨hiLt, hiP, _⟩
    have hiLt' : i < (pyStrip (stripFences text)).length := by simpa using hiLt
    have htB : (pyStrip (stripFences text))[b]? = some ']' := by
      have h1 : (pyStrip (stripFences text)).reverse[i]? = some ']' := by
        rw [List.getElem?_eq_getElem hiLt]
        simpa using hiP
      rw [List.getElem?_reverse hiLt'] at h1
      rw [hbi]
      exact h1
    have hbLt : b < (pyStrip (stripFences text)).length := by omega
    refine ⟨?_, ?_, ?_, ?_⟩
    · rw [List.head?_drop, List.getElem?_take_of_lt (by omega),
        List.getElem?_eq_getElem haLt, htA]
    · have hlen : ((pyStrip (stripFences text)).take (b + 1)).length = b + 1 := by
        simp only [List.length_take]
        omega
      have hlen2 : (((pyStrip (stripFences text)).take (b + 1)).drop a).length
          = b + 1 - a := by
        simp only [List.length_drop, hlen]
      rw [List.getLast?_eq_getElem?, hlen2, List.getElem?_drop,
        show a + (b + 1 - a - 1) = b by omega,
        List.getElem?_take_of_lt (by omega)]
      exact htB
    · exact ((List.drop_suffix _ _).isInfix).trans ((List.take_prefix _ _).isInfix)
    · simp only [extract_json_array, ha, hb]
      rw [if_neg (by omega)]

/-- Witness for C9 at the spec's fenced example: the fenced text extracts the
same array `[1, 2]` as the bare JSON text. -/
theorem extract_json_array_spec_witness :
    extract_json_array ("Sure! ```json\n[1, 2]\n``` Hope that helps".data) =
      Except.ok (Json.arr [Json.num ['1'], Json.num ['2']]) ∧
    extract_json_array ("[1, 2]".data) =
      Except.ok (Json.arr [Json.num ['1'], Json.num ['2']]) := by
  have h := (extract_json_array_spec ("Sure! ```json\n[1, 2]\n``` Hope that helps".data)
    (pyStrip (stripFences ("Sure! ```json\n[1, 2]\n``` Hope that helps".data))) rfl).2
    7 12 (by rfl) (by rfl) (by omega)
  exact ⟨h.2.2.2.trans (by rfl), by rfl⟩

/-! ### Model of Python `str()` on parsed JSON values -/

def joinComma : List (List Char) → List Char
  | [] => []
  | [x] => x
  | x :: y :: rest => x ++ ',' :: ' ' :: joinComma (y :: rest)

/-- `repr`-style rendering, used by `str()` on lists and dicts. -/
def pyRepr (j : Json) : List Char :=
  match j with
  | Json.null => "None".data
  | Json.bool b => if b then "True".data else "False".data
  | Json.num lex => lex
  | Json.str s => quoteChar :: (s ++ [quoteChar])
  | Json.arr xs => '[' :: (joinComma (xs.attach.map (fun x => pyRepr x.1)) ++ [']'])
  | Json.obj ms =>
    Char.ofNat 123 :: (joinComma (ms.attach.map (fun m =>
      (quoteChar :: (m.1.1 ++ [quoteChar, ':', ' '])) ++ pyRepr m.1.2)) ++
      [Char.ofNat 125])
termination_by sizeOf j
decreasing_by
  · have := List.sizeOf_lt_of_mem x.2
    simp only [Json.arr.sizeOf_spec]
    omega
  · have h1 := List.sizeOf_lt_of_mem m.2
    have h2 : sizeOf m.1.2 < sizeOf m.1 := by
      cases hm : m.1 with
      | mk a b => simp [hm]
    simp only [Json.obj.sizeOf_spec]
    omega

/-- Model of `str(x)` for a parsed JSON value `x`: strings render verbatim,
scalars as Python renders them, containers through `repr`. -/
def pyStr : Json → List Char
  | Json.str s => s
  | Json.bool b => if b then "True".data else "False".data
  | Json.null => "None".data
  | Json.num lex => lex
  | Json.arr xs => pyRepr (Json.arr xs)
  | Json.obj ms => pyRepr (Json.obj ms)

/-! ### The record validator `sanitize_items` -/

/-- One pool record: the dicts `{"w","tr","pos","lvl"}` that `sanitize_items`
and the existing-pool cleanup construct. -/
structure PoolItem where
  w : List Char
  tr : List Char
  pos : List Char
  lvl : List Char
deriving DecidableEq, Repr

def POS_ALLOWED : List (List Char) := ["noun".data, "verb".data, "adj".data, "adv".data]

def LVL_ALLOWED : List (List Char) :=
  ["A1".data, "A2".data, "B1".data, "B2".data, "C1".data]

/-- The `pos` coercion block of `sanitize_items`: prefix heuristics applied
only when the value is not already in the enum; first matching branch wins. -/
def coercePos (pos : List Char) : List Char :=
  if POS_ALLOWED.contains pos then pos
  else if ['n'].isPrefixOf pos then "noun".data
  else if ['v'].isPrefixOf pos then "verb".data
  else if ['a', 'd'].isPrefixOf pos ∧ pos ≠ "adj".data then "adv".data
  else if ['a'].isPrefixOf pos then "adj".data
  else pos

/-- `str(it.get("w","")).strip()`. -/
def wOf (ms : List (List Char × Json)) : List Char :=
  pyStrip (pyStr (objGet ms ("w".data) (Json.str [])))

/-- `str(it.get("tr","")).strip()`. -/
def trOf (ms : List (List Char × Json)) : List Char :=
  pyStrip (pyStr (objGet ms ("tr".data) (Json.str [])))

/-- `str(it.get("pos","")).strip().lower()`. -/
def posOfCandidate (ms : List (List Char × Json)) : List Char :=
  pyLower (pyStrip (pyStr (objGet ms ("pos".data) (Json.str []))))

/-- `str(it.get("lvl","")).strip().upper()`. -/
def lvlOfCandidate (ms : List (List Char × Json)) : List Char :=
  pyUpper (pyStrip (pyStr (objGet ms ("lvl".data) (Json.str []))))

/-- The per-candidate body of `sanitize_items`' loop: non-dicts and records
with empty trimmed `w`/`tr` are dropped, `pos` is coerced and must land in
the enum, `lvl` defaults to `B1` when not in the enum. -/
def sanitizeOne (it : Json) : Option PoolItem :=
  match it with
  | Json.obj ms =>
    if wOf ms = [] ∨ trOf ms = [] then none
    else
      if POS_ALLOWED.contains (coercePos (posOfCandidate ms)) then
        some ⟨wOf ms, trOf ms, coercePos (posOfCandidate ms),
          if LVL_ALLOWED.contains (lvlOfCandidate ms) then lvlOfCandidate ms
          else "B1".data⟩
      else none
  | _ => none

/-- `sanitize_items` from `lang_pool.py`: non-lists give `[]`, candidates are
validated one by one. -/
def sanitize_items (arr : Json) : List PoolItem :=
  match arr with
  | Json.arr xs => xs.filterMap sanitizeOne
  | _ => []

/-! ### Cleanup of the previously persisted pool (`build_lang` lines 196-216) -/

/-- `str(it.get("pos","noun")).strip().lower() or "noun"`. -/
def posOfExisting (ms : List (List Char × Json)) : List Char :=
  if pyLower (pyStrip (pyStr (objGet ms ("pos".data) (Json.str "noun".data)))) = []
  then "noun".data
  else pyLower (pyStrip (pyStr (objGet ms ("pos".data) (Json.str "noun".data))))

/-- `str(it.get("lvl","B1")).strip().upper() or "B1"`. -/
def lvlOfExisting (ms : List (List Char × Json)) : List Char :=
  if pyUpper (pyStrip (pyStr (objGet ms ("lvl".data) (Json.str "B1".data)))) = []
  then "B1".data
  else pyUpper (pyStrip (pyStr (objGet ms ("lvl".data) (Json.str "B1".data))))

/-- The existing-items normalization loop: keeps dicts with non-empty trimmed
`w` and `tr` and a fresh non-empty dedup key, lower/upper-cases `pos`/`lvl`
with `"noun"`/`"B1"` defaults for missing or empty values, and threads the
dedup-key set; returns the cleaned list and the final key set. -/
def cleanExisting : List Json → List (List Char) → List PoolItem × List (List Char)
  | [], seen => ([], seen)
  | it :: rest, seen =>
    match it with
    | Json.obj ms =>
      if wOf ms = [] ∨ trOf ms = [] then cleanExisting rest seen
      else if norm (wOf ms) = [] ∨ seen.contains (norm (wOf ms)) then
        cleanExisting rest seen
      else
        match cleanExisting rest (norm (wOf ms) :: seen) with
        | (cl, fs) => (⟨wOf ms, trOf ms, posOfExisting ms, lvlOfExisting ms⟩ :: cl, fs)
    | _ => cleanExisting rest seen

/-! ### The build orchestrator `build_lang`

The generation side is an oracle `gen : Nat → Except PyErr (List Char)`
giving the text (or the exception) of the n-th call to
`gemini_generate_json`; prompts and seeds influence only the remote service,
so every concrete execution of the endpoint corresponds to some oracle.
Storage uploads always succeed in this model and are recorded in order;
besides the store trace, the run output carries instrumentation (per-round
persist flags and pool sizes, the effective target, the cleaned initial
pool) that observes but never influences the modelled control flow. -/

/-- The supported language codes (keys of `LANGS`; the display names feed
only the prompts, which the oracle abstracts away). -/
def LANGS : List (List Char) := ["en".data, "de".data, "fr".data, "es".data, "it".data]

structure BuildReq where
  lang : List Char
  target : Int
  chunk : Int
  max_rounds : Int
  version : Int
  mode : List Char
deriving Repr

/-- The response model (the `public_url` field only echoes environment
variables and is omitted). -/
structure BuildResp where
  lang : List Char
  target : Nat
  total : Nat
deriving DecidableEq, Repr

/-- One document written to storage. -/
structure Payload where
  lang : List Char
  version : Int
  items : List PoolItem
deriving DecidableEq, Repr

def noDataMsg : String := "No items generated (model did not return parseable JSON)."

/-- The in-loop mutable state, plus the store trace and instrumentation. -/
structure LoopState where
  items : List PoolItem
  seen : List (List Char)
  noProgress : Nat
  calls : Nat
  persists : List Payload
  rounds : Nat
  flags : List Bool
  sizes : List Nat
deriving Repr

/-- The body of the merge loop for one validated record: skip when the dedup
key is empty or already seen, else append and count. -/
def mergeStep (acc : List PoolItem × List (List Char) × Nat) (it : PoolItem) :
    List PoolItem × List (List Char) × Nat :=
  let k := norm it.w
  if k = [] ∨ acc.2.1.contains k then acc
  else (acc.1 ++ [it], k :: acc.2.1, acc.2.2 + 1)

/-- The merge loop over one round's batch: returns the new pool, the new key
set, and `added`. -/
def mergeBatch (items : List PoolItem) (seen : List (List Char))
    (batch : List PoolItem) : List PoolItem × List (List Char) × Nat :=
  batch.foldl mergeStep (items, seen, 0)

/-- `extract_json_array` + `sanitize_items` under the round's
`try`/`except`: an extraction exception yields the same empty batch as an
empty sanitization. -/
def tryParse (raw : List Char) : List PoolItem :=
  match extract_json_array raw with
  | Except.error _ => []
  | Except.ok arr => sanitize_items arr

/-- The `for _ in range(3)` retry loop: parse the current text; while the
batch stays empty, fetch a fresh completion (whose exception propagates) and
try again; the text fetched on the last iteration is never parsed. -/
def retryParse (gen : Nat → Except PyErr (List Char)) :
    Nat → List Char → Nat → Except (PyErr × Nat) (List PoolItem × Nat)
  | 0, _, calls => Except.ok ([], calls)
  | k + 1, raw, calls =>
    let nb := tryParse raw
    if nb ≠ [] then Except.ok (nb, calls)
    else
      match gen calls with
      | Except.error e => Except.error (e, calls + 1)
      | Except.ok raw2 => retryParse gen k raw2 (calls + 1)

/-- Outcome of one round: an uncaught exception, a `break`, or fall-through
to the next loop test. -/
inductive RoundStep where
  | fail : PyErr → LoopState → RoundStep
  | stop : LoopState → RoundStep
  | next : LoopState → RoundStep

/-- One iteration of the `while` body (a "round"): one generation call, the
in-round parse retries, the merge, the no-progress bookkeeping with its
5-round break, and the per-round upload — which is skipped both by the
empty-batch `continue` and by the `break`s.  `flags` records, per completed
round, whether that round uploaded; `sizes` records the pool size after the
round. -/
def doRound (gen : Nat → Except PyErr (List Char)) (lang : List Char)
    (version : Int) (target : Nat) (st : LoopState) : RoundStep :=
  match gen st.calls with
  | Except.error e =>
    RoundStep.fail e { st with
      rounds := st.rounds + 1
      calls := st.calls + 1 }
  | Except.ok raw =>
    match retryParse gen 3 raw (st.calls + 1) with
    | Except.error (e, calls') =>
      RoundStep.fail e { st with
        rounds := st.rounds + 1
        calls := calls' }
    | Except.ok (batch, calls') =>
      if batch = [] then
        if 5 ≤ st.noProgress + 1 then
          RoundStep.stop { st with
            rounds := st.rounds + 1
            calls := calls'
            noProgress := st.noProgress + 1
            flags := st.flags ++ [false]
            sizes := st.sizes ++ [st.items.length] }
        else
          RoundStep.next { st with
            rounds := st.rounds + 1
            calls := calls'
            noProgress := st.noProgress + 1
            flags := st.flags ++ [false]
            sizes := st.sizes ++ [st.items.length] }
      else
        match mergeBatch st.items st.seen batch with
        | (items', seen', added) =>
          if added = 0 then
            if 5 ≤ st.noProgress + 1 then
              RoundStep.stop { st with
                items := items'
                seen := seen'
                rounds := st.rounds + 1
                calls := calls'
                noProgress := st.noProgress + 1
                flags := st.flags ++ [false]
                sizes := st.sizes ++ [items'.length] }
            else
              RoundStep.next { st with
                items := items'
                seen := seen'
                rounds := st.rounds + 1
                calls := calls'
                noProgress := st.noProgress + 1
                persists := st.persists ++ [⟨lang, version, items'.take target⟩]
                flags := st.flags ++ [true]
                sizes := st.sizes ++ [items'.length] }
          else
            RoundStep.next { st with
              items := items'
              seen := seen'
              rounds := st.rounds + 1
              calls := calls'
              noProgress := 0
              persists := st.persists ++ [⟨lang, version, items'.take target⟩]
              flags := st.flags ++ [true]
              sizes := st.sizes ++ [items'.length] }

/-- Loop result: normal exit state or an uncaught exception with the state
(whose store trace survives) at raise time. -/
inductive LoopRes where
  | ok : LoopState → LoopRes
  | err : PyErr → LoopState → LoopRes

/-- The `while len(items) < target and rounds < max_rounds` loop; the fuel is
the number of rounds the `rounds < max_rounds` conjunct still allows. -/
def buildLoop (gen : Nat → Except PyErr (List Char)) (lang : List Char)
    (version : Int) (target : Nat) : Nat → LoopState → LoopRes
  | 0, st => LoopRes.ok st
  | fuel + 1, st =>
    if st.items.length < target then
      match doRound gen lang version target st with
      | RoundStep.fail e st' => LoopRes.err e st'
      | RoundStep.stop st' => LoopRes.ok st'
      | RoundStep.next st' => buildLoop gen lang version target fuel st'
    else LoopRes.ok st

/-- Everything observable about one call of the endpoint. -/
structure RunOut where
  result : Except PyErr BuildResp
  persists : List Payload
  rounds : Nat
  flags : List Bool
  sizes : List Nat
  finalItems : List PoolItem
  initItems : List PoolItem
  targetEff : Nat
  noProgress : Nat
deriving Repr

/-- `(req.lang or "").strip().lower()`. -/
def langOf (req : BuildReq) : List Char := pyLower (pyStrip req.lang)

/-- `max(50, min(20000, int(req.target)))`. -/
def clampTarget (req : BuildReq) : Nat := (max 50 (min 20000 req.target)).toNat

/-- `max(20, min(200, int(req.chunk)))`. -/
def clampChunk (req : BuildReq) : Nat := (max 20 (min 200 req.chunk)).toNat

/-- `max(1, min(200, int(req.max_rounds)))`. -/
def clampRounds (req : BuildReq) : Nat := (max 1 (min 200 req.max_rounds)).toNat

/-- `(req.mode or "fill").strip().lower()`. -/
def modeOf (req : BuildReq) : List Char :=
  pyLower (pyStrip (if req.mode = [] then "fill".data else req.mode))

/-- `existing.get("items", [])` guarded by `isinstance(items, list)`. -/
def existingItems (existing : List (List Char × Json)) : List Json :=
  match objGet existing ("items".data) (Json.arr []) with
  | Json.arr xs => xs
  | _ => []

/-- The cleaned initial pool and its dedup-key set. -/
def initPool (existing : List (List Char × Json)) : List PoolItem × List (List Char) :=
  cleanExisting (existingItems existing) []

/-- The effective target: recomputed as `min(len(items) + chunk, 20000)` in
`"add"` mode, the clamped requested target otherwise. -/
def effTarget (req : BuildReq) (existing : List (List Char × Json)) : Nat :=
  if modeOf req = "add".data then min ((initPool existing).1.length + clampChunk req) 20000
  else clampTarget req

/-- `build_lang` from `lang_pool.py`: validate the language, clamp the
numeric inputs, download and clean the existing pool, recompute the target in
`"add"` mode, run the round loop, fail when the pool ends empty, and
otherwise upload the clamped pool once more and answer with
`total = min(|items|, target)`.  `existing` is the parsed document the
storage download produced (the route substitutes an empty default when the
object is absent). -/
def build_lang (gen : Nat → Except PyErr (List Char)) (req : BuildReq)
    (existing : List (List Char × Json)) : RunOut :=
  if LANGS.contains (langOf req) then
    match buildLoop gen (langOf req) req.version (effTarget req existing) (clampRounds req)
        ⟨(initPool existing).1, (initPool existing).2, 0, 0, [], 0, [], []⟩ with
    | LoopRes.err e st =>
      ⟨Except.error e, st.persists, st.rounds, st.flags, st.sizes, st.items,
        (initPool existing).1, effTarget req existing, st.noProgress⟩
    | LoopRes.ok st =>
      if st.items.length = 0 then
        ⟨Except.error (PyErr.http 500 noDataMsg), st.persists, st.rounds,
          st.flags, st.sizes, st.items, (initPool existing).1, effTarget req existing,
          st.noProgress⟩
      else
        ⟨Except.ok ⟨langOf req, effTarget req existing, min st.items.length (effTarget req existing)⟩,
          st.persists ++ [⟨langOf req, req.version, st.items.take (effTarget req existing)⟩],
          st.rounds, st.flags, st.sizes, st.items, (initPool existing).1,
          effTarget req existing, st.noProgress⟩
  else
    ⟨Except.error (PyErr.http 400 "Unsupported lang"), [], 0, [], [], [], [], 0, 0⟩

/-! ### The `call_gemini` keyword-argument mismatch (`chat.py` line 119,
`lang_pool.py` line 175) -/

/-- The parameter names `call_gemini` declares; its signature has no
`**kwargs` catch-all and no `system_instruction` parameter. -/
def call_gemini_params : List String := ["messages", "max_tokens"]

/-- The keyword-argument names `gemini_generate_json` passes in its call
`call_gemini(messages, system_instruction=..., max_tokens=...)`. -/
def gemini_generate_json_kwargs : List String := ["system_instruction", "max_tokens"]

/-- A Python call whose signature lacks `**kwargs` binds only when every
keyword argument names a declared parameter; otherwise the call raises
`TypeError` before the body runs. -/
def callBinds (params kwargs : List String) : Bool := kwargs.all params.contains

/-- The generation oracle induced by the mismatched call: every invocation of
`gemini_generate_json` raises `TypeError`. -/
def raisingGen : Nat → Except PyErr (List Char) := fun _ => Except.error PyErr.typeError

/-! ### Facts about the merge loop -/

theorem mergeStep_cases (acc : List PoolItem × List (List Char) × Nat) (it : PoolItem) :
    mergeStep acc it = acc ∨
      (mergeStep acc it = (acc.1 ++ [it], norm it.w :: acc.2.1, acc.2.2 + 1) ∧
        acc.2.1.contains (norm it.w) = false ∧ norm it.w ≠ []) := by
  unfold mergeStep
  by_cases h : norm it.w = [] ∨ acc.2.1.contains (norm it.w) = true
  · left
    rw [if_pos h]
  · right
    rw [if_neg h]
    push_neg at h
    exact ⟨rfl, by simpa using h.2, h.1⟩

theorem mergeFold_counter_le :
    ∀ (batch : List PoolItem) (acc : List PoolItem × List (List Char) × Nat),
      acc.2.2 ≤ (batch.foldl mergeStep acc).2.2
  | [], _ => Nat.le_refl _
  | it :: rest, acc => by
    rcases mergeStep_cases acc it with h | ⟨h, _, _⟩
    · simpa [List.foldl_cons, h] using mergeFold_counter_le rest acc
    · have h2 : acc.2.2 + 1 ≤
          (rest.foldl mergeStep (acc.1 ++ [it], norm it.w :: acc.2.1, acc.2.2 + 1)).2.2 := by
        simpa using mergeFold_counter_le rest (acc.1 ++ [it], norm it.w :: acc.2.1, acc.2.2 + 1)
      simp only [List.foldl_cons, h]
      omega

theorem mergeFold_append :
    ∀ (batch : List PoolItem) (acc : List PoolItem × List (List Char) × Nat),
      ∃ tail, (batch.foldl mergeStep acc).1 = acc.1 ++ tail
  | [], acc => ⟨[], (List.append_nil _).symm⟩
  | it :: rest, acc => by
    rcases mergeStep_cases acc it with h | ⟨h, _, _⟩
    · simpa [List.foldl_cons, h] using mergeFold_append rest acc
    · rcases mergeFold_append rest (acc.1 ++ [it], norm it.w :: acc.2.1, acc.2.2 + 1) with ⟨t, ht⟩
      refine ⟨it :: t, ?_⟩
      simp only [List.foldl_cons, h, ht]
      simp

theorem mergeFold_zero :
    ∀ (batch : List PoolItem) (acc : List PoolItem × List (List Char) × Nat),
      (batch.foldl mergeStep acc).2.2 = acc.2.2 →
        (batch.foldl mergeStep acc).1 = acc.1 ∧ (batch.foldl mergeStep acc).2.1 = acc.2.1
  | [], _, _ => ⟨rfl, rfl⟩
  | it :: rest, acc, h => by
    rcases mergeStep_cases acc it with hc | ⟨hc, _, _⟩
    · rw [List.foldl_cons, hc] at h ⊢
      exact mergeFold_zero rest acc h
    · exfalso
      have hle := mergeFold_counter_le rest (acc.1 ++ [it], norm it.w :: acc.2.1, acc.2.2 + 1)
      rw [List.foldl_cons, hc] at h
      simp only at hle
      omega

/-- The merged pool, key set and counter if `added = 0`: nothing changed. -/
theorem mergeBatch_added_zero {items : List PoolItem} {seen : List (List Char)}
    {batch : List PoolItem} {items' : List PoolItem} {seen' : List (List Char)}
    (h : mergeBatch items seen batch = (items', seen', 0)) :
    items' = items ∧ seen' = seen := by
  unfold mergeBatch at h
  have h2 : (batch.foldl mergeStep (items, seen, 0)).2.2 = 0 := by rw [h]
  have := mergeFold_zero batch (items, seen, 0) h2
  rw [h] at this
  exact this

/-- Each round's batch is either empty or the sanitization of some response
text. -/
theorem retryParse_batch_from_sanitize (gen : Nat → Except PyErr (List Char)) :
    ∀ (fuel : Nat) (raw : List Char) (calls : Nat) (batch : List PoolItem) (calls' : Nat),
      retryParse gen fuel raw calls = Except.ok (batch, calls') →
        batch = [] ∨ ∃ raw', batch = tryParse raw'
  | 0, _, _, batch, _, h => by
    simp only [retryParse] at h
    injection h with h1
    injection h1 with h2 h3
    exact Or.inl h2.symm
  | fuel + 1, raw, calls, batch, calls', h => by
    simp only [retryParse] at h
    by_cases hnb : tryParse raw ≠ []
    · rw [if_pos hnb] at h
      cases Except.ok.inj h
      exact Or.inr ⟨raw, rfl⟩
    · rw [if_neg hnb] at h
      cases hg : gen calls with
      | error e => rw [hg] at h; cases h
      | ok raw2 =>
        rw [hg] at h
        exact retryParse_batch_from_sanitize gen fuel raw2 (calls + 1) batch calls' h

/-- Case analysis of one round.  A failing round (an uncaught generation
exception) changes nothing but the counters; a completed round increments the
round counter, records the pool size, either skips the upload (flag `false`)
or uploads exactly the current pool clamped to `target` (flag `true`), uploads
whenever the round changed the pool, and reaches its pool/key-set through the
merge loop applied to an (empty or sanitize-produced) batch. -/
theorem doRound_spec (gen : Nat → Except PyErr (List Char)) (lang : List Char)
    (version : Int) (target : Nat) (st : LoopState) :
    (∃ e st', doRound gen lang version target st = RoundStep.fail e st' ∧
       st'.items = st.items ∧ st'.seen = st.seen ∧ st'.persists = st.persists ∧
       st'.flags = st.flags ∧ st'.sizes = st.sizes ∧ st'.rounds = st.rounds + 1 ∧
       st'.noProgress = st.noProgress) ∨
    (∃ st', (doRound gen lang version target st = RoundStep.stop st' ∧ 5 ≤ st'.noProgress ∨
             doRound gen lang version target st = RoundStep.next st') ∧
       st'.rounds = st.rounds + 1 ∧
       st'.sizes = st.sizes ++ [st'.items.length] ∧
       ((st'.persists = st.persists ∧ st'.flags = st.flags ++ [false]) ∨
        (st'.persists = st.persists ++ [⟨lang, version, st'.items.take target⟩] ∧
         st'.flags = st.flags ++ [true])) ∧
       (st'.items ≠ st.items →
         st'.persists = st.persists ++ [⟨lang, version, st'.items.take target⟩]) ∧
       (∃ batch added, (batch = [] ∨ ∃ raw, batch = tryParse raw) ∧
         mergeBatch st.items st.seen batch = (st'.items, st'.seen, added))) := by
  unfold doRound
  cases hg : gen st.calls with
  | error e =>
    exact Or.inl ⟨e, _, rfl, rfl, rfl, rfl, rfl, rfl, rfl, rfl⟩
  | ok raw =>
    dsimp only
    cases hr : retryParse gen 3 raw (st.calls + 1) with
    | error p =>
      rcases p with ⟨e, calls'⟩
      exact Or.inl ⟨e, _, rfl, rfl, rfl, rfl, rfl, rfl, rfl, rfl⟩
    | ok q =>
      rcases q with ⟨batch, calls'⟩
      dsimp only
      by_cases hb : batch = []
      · subst hb
        simp only [if_pos rfl]
        by_cases h5 : 5 ≤ st.noProgress + 1
        · rw [if_pos h5]
          refine Or.inr ⟨_, Or.inl ⟨rfl, h5⟩, rfl, rfl, Or.inl ⟨rfl, rfl⟩,
            fun hne => absurd rfl hne, [], 0, Or.inl rfl, rfl⟩
        · rw [if_neg h5]
          refine Or.inr ⟨_, Or.inr rfl, rfl, rfl, Or.inl ⟨rfl, rfl⟩,
            fun hne => absurd rfl hne, [], 0, Or.inl rfl, rfl⟩
      · rw [if_neg hb]
        have hfrom : batch = [] ∨ ∃ raw', batch = tryParse raw' :=
          retryParse_batch_from_sanitize gen 3 raw (st.calls + 1) batch calls' hr
        rcases hmb : mergeBatch st.items st.seen batch with ⟨items', seen', added⟩
        dsimp only
        by_cases ha : added = 0
        · subst ha
          obtain ⟨hi, hs⟩ := mergeBatch_added_zero hmb
          subst hi
          subst hs
          simp only [if_pos rfl]
          by_cases h5 : 5 ≤ st.noProgress + 1
          · rw [if_pos h5]
            refine Or.inr ⟨_, Or.inl ⟨rfl, h5⟩, rfl, rfl, Or.inl ⟨rfl, rfl⟩,
              fun hne => absurd rfl hne, batch, 0, hfrom, hmb⟩
          · rw [if_neg h5]
            refine Or.inr ⟨_, Or.inr rfl, rfl, rfl, Or.inr ⟨rfl, rfl⟩,
              fun _ => rfl, batch, 0, hfrom, hmb⟩
        · rw [if_neg ha]
          refine Or.inr ⟨_, Or.inr rfl, rfl, rfl, Or.inr ⟨rfl, rfl⟩,
            fun _ => rfl, batch, added, hfrom, hmb⟩

/-! ### Loop-level lemmas -/

theorem retryParse_ok_of_genOk (gen : Nat → Except PyErr (List Char))
    (hgen : ∀ n, (gen n).isOk = true) :
    ∀ (fuel : Nat) (raw : List Char) (calls : Nat),
      ∃ q, retryParse gen fuel raw calls = Except.ok q
  | 0, _, calls => ⟨([], calls), rfl⟩
  | fuel + 1, raw, calls => by
    simp only [retryParse]
    by_cases hnb : tryParse raw ≠ []
    · exact ⟨(tryParse raw, calls), by rw [if_pos hnb]⟩
    · rw [if_neg hnb]
      cases hg : gen calls with
      | error e =>
        have := hgen calls
        rw [hg] at this
        cases this
      | ok raw2 => exact retryParse_ok_of_genOk gen hgen fuel raw2 (calls + 1)

theorem doRound_no_fail (gen : Nat → Except PyErr (List Char)) (lang : List Char)
    (version : Int) (target : Nat) (st : LoopState)
    (hgen : ∀ n, (gen n).isOk = true) :
    (∃ st', doRound gen lang version target st = RoundStep.stop st') ∨
    (∃ st', doRound gen lang version target st = RoundStep.next st') := by
  unfold doRound
  cases hg : gen st.calls with
  | error e =>
    have := hgen st.calls
    rw [hg] at this
    cases this
  | ok raw =>
    dsimp only
    obtain ⟨⟨batch, calls'⟩, hr⟩ := retryParse_ok_of_genOk gen hgen 3 raw (st.calls + 1)
    rw [hr]
    dsimp only
    by_cases hb : batch = []
    · subst hb
      simp only [if_pos rfl]
      by_cases h5 : 5 ≤ st.noProgress + 1
      · rw [if_pos h5]
        exact Or.inl ⟨_, rfl⟩
      · rw [if_neg h5]
        exact Or.inr ⟨_, rfl⟩
    · rw [if_neg hb]
      rcases hmb : mergeBatch st.items st.seen batch with ⟨items', seen', added⟩
      dsimp only
      by_cases ha : added = 0
      · subst ha
        simp only [if_pos rfl]
        by_cases h5 : 5 ≤ st.noProgress + 1
        · rw [if_pos h5]
          exact Or.inl ⟨_, rfl⟩
        · rw [if_neg h5]
          exact Or.inr ⟨_, rfl⟩
      · rw [if_neg ha]
        exact Or.inr ⟨_, rfl⟩

/-- The state a loop result carries (the raise-time state for `err`). -/
def LoopRes.state : LoopRes → LoopState
  | LoopRes.ok st => st
  | LoopRes.err _ st => st

/-- Any property preserved by every outcome of `doRound` holds at the end of
the loop — and, the loop being a chain of `doRound` steps from the initial
state, at every round boundary in between. -/
theorem buildLoop_inv (gen : Nat → Except PyErr (List Char)) (lang : List Char)
    (version : Int) (target : Nat) (P : LoopState → Prop)
    (hstep : ∀ st st', ((∃ e, doRound gen lang version target st = RoundStep.fail e st') ∨
        doRound gen lang version target st = RoundStep.stop st' ∨
        doRound gen lang version target st = RoundStep.next st') → P st → P st') :
    ∀ (fuel : Nat) (st : LoopState), P st →
      P (buildLoop gen lang version target fuel st).state
  | 0, st, h => h
  | fuel + 1, st, h => by
    simp only [buildLoop]
    by_cases hc : st.items.length < target
    · rw [if_pos hc]
      cases hd : doRound gen lang version target st with
      | fail e st' => exact hstep st st' (Or.inl ⟨e, hd⟩) h
      | stop st' => exact hstep st st' (Or.inr (Or.inl hd)) h
      | next st' =>
        exact buildLoop_inv gen lang version target P hstep fuel st'
          (hstep st st' (Or.inr (Or.inr hd)) h)
    · rw [if_neg hc]
      exact h

theorem buildLoop_ok (gen : Nat → Except PyErr (List Char)) (lang : List Char)
    (version : Int) (target : Nat) (hgen : ∀ n, (gen n).isOk = true) :
    ∀ (fuel : Nat) (st : LoopState),
      ∃ st', buildLoop gen lang version target fuel st = LoopRes.ok st'
  | 0, st => ⟨st, rfl⟩
  | fuel + 1, st => by
    simp only [buildLoop]
    by_cases hc : st.items.length < target
    · rw [if_pos hc]
      rcases doRound_no_fail gen lang version target st hgen with ⟨st', hd⟩ | ⟨st', hd⟩
      · rw [hd]
        exact ⟨st', rfl⟩
      · rw [hd]
        exact buildLoop_ok gen lang version target hgen fuel st'
    · rw [if_neg hc]
      exact ⟨st, rfl⟩

/-- A normal loop exit happens for one of three reasons: the pool reached the
target, the round budget is exhausted, or five consecutive rounds made no
progress. -/
theorem buildLoop_exit (gen : Nat → Except PyErr (List Char)) (lang : List Char)
    (version : Int) (target : Nat) :
    ∀ (fuel : Nat) (st st' : LoopState),
      buildLoop gen lang version target fuel st = LoopRes.ok st' →
        target ≤ st'.items.length ∨ st'.rounds = st.rounds + fuel ∨ 5 ≤ st'.noProgress
  | 0, st, st', h => by
    cases h
    exact Or.inr (Or.inl rfl)
  | fuel + 1, st, st', h => by
    simp only [buildLoop] at h
    by_cases hc : st.items.length < target
    · rw [if_pos hc] at h
      cases hd : doRound gen lang version target st with
      | fail e str2 =>
        rw [hd] at h
        cases h
      | stop str2 =>
        rw [hd] at h
        cases h
        rcases doRound_spec gen lang version target st with
          ⟨e, s2, hf, _⟩ | ⟨s2, hout, _⟩
        · rw [hd] at hf
          cases hf
        · rcases hout with ⟨heq, h5⟩ | heq
          · rw [hd] at heq
            cases heq
            exact Or.inr (Or.inr h5)
          · rw [hd] at heq
            cases heq
      | next str2 =>
        rw [hd] at h
        rcases buildLoop_exit gen lang version target fuel str2 st' h with h1 | h1 | h1
        · exact Or.inl h1
        · have hrounds : str2.rounds = st.rounds + 1 := by
            rcases doRound_spec gen lang version target st with
              ⟨e, s2, hf, _⟩ | ⟨s2, hout, hr2, _⟩
            · rw [hd] at hf
              cases hf
            · rcases hout with ⟨heq, _⟩ | heq
              · rw [hd] at heq
                cases heq
              · rw [hd] at heq
                cases heq
                exact hr2
          rw [h1, hrounds]
          omega
        · exact Or.inr (Or.inr h1)
    · rw [if_neg hc] at h
      cases h
      exact Or.inl (Nat.le_of_not_lt hc)

/-! ### Top-level claims about `build_lang` -/

theorem build_lang_targetEff (gen : Nat → Except PyErr (List Char)) (req : BuildReq)
    (existing : List (List Char × Json)) (hval : LANGS.contains (langOf req) = true) :
    (build_lang gen req existing).targetEff = effTarget req existing := by
  unfold build_lang
  rw [if_pos hval]
  cases buildLoop gen (langOf req) req.version (effTarget req existing) (clampRounds req)
      ⟨(initPool existing).1, (initPool existing).2, 0, 0, [], 0, [], []⟩ with
  | err e st => rfl
  | ok st =>
    dsimp only
    by_cases h0 : st.items.length = 0
    · rw [if_pos h0]
    · rw [if_neg h0]

/-- C10: for a validated request, the effective target the build works
towards and reports is recomputed as `min(currentPoolSize + chunkSize,
20000)` exactly when the request's normalized mode is `"add"`; in every other
mode (including `"fill"`) it is the clamped requested target, untouched by
the pool size. -/
theorem add_mode_target_spec (gen : Nat → Except PyErr (List Char)) (req : BuildReq)
    (existing : List (List Char × Json)) (hval : LANGS.contains (langOf req) = true) :
    (modeOf req = "add".data →
      (build_lang gen req existing).targetEff =
        min ((initPool existing).1.length + clampChunk req) 20000) ∧
    (modeOf req ≠ "add".data →
      (build_lang gen req existing).targetEff = clampTarget req) := by
  rw [build_lang_targetEff gen req existing hval]
  unfold effTarget
  constructor
  · intro h
    rw [if_pos h]
  · intro h
    rw [if_neg h]

/-- Witness for C10: a concrete `"add"` build over a one-item pool with
`chunk` clamped to 20 targets `min(1 + 20, 20000) = 21`, while the same
request in `"fill"` mode targets the clamped requested 700. -/
theorem add_mode_target_spec_witness :
    (build_lang (fun _ => Except.ok ("garbage".data))
        ⟨"en".data, 700, 2, 60, 1, "add".data⟩
        [("items".data, Json.arr [Json.obj [("w".data, Json.str ['a']),
          ("tr".data, Json.str ['b'])]])]).targetEff = 21 ∧
    (build_lang (fun _ => Except.ok ("garbage".data))
        ⟨"en".data, 700, 2, 60, 1, "fill".data⟩
        [("items".data, Json.arr [Json.obj [("w".data, Json.str ['a']),
          ("tr".data, Json.str ['b'])]])]).targetEff = 700 := by
  constructor
  · have h := (add_mode_target_spec (fun _ => Except.ok ("garbage".data))
      ⟨"en".data, 700, 2, 60, 1, "add".data⟩
      [("items".data, Json.arr [Json.obj [("w".data, Json.str ['a']),
        ("tr".data, Json.str ['b'])]])] (by decide)).1 (by decide)
    rw [h]
    decide
  · have h := (add_mode_target_spec (fun _ => Except.ok ("garbage".data))
      ⟨"en".data, 700, 2, 60, 1, "fill".data⟩
      [("items".data, Json.arr [Json.obj [("w".data, Json.str ['a']),
        ("tr".data, Json.str ['b'])]])] (by decide)).2 (by decide)
    rw [h]
    decide

theorem doRound_raising (lang : List Char) (version : Int) (target : Nat)
    (st : LoopState) :
    doRound raisingGen lang version target st =
      RoundStep.fail PyErr.typeError
        { st with rounds := st.rounds + 1, calls := st.calls + 1 } := rfl

theorem clampRounds_pos (req : BuildReq) : 1 ≤ clampRounds req := by
  unfold clampRounds
  have h : (1 : Int) ≤ max 1 (min 200 req.max_rounds) := le_max_left _ _
  omega

theorem clampChunk_ge (req : BuildReq) : 20 ≤ clampChunk req := by
  unfold clampChunk
  have h : (20 : Int) ≤ max 20 (min 200 req.chunk) := le_max_left _ _
  omega

theorem clampTarget_ge (req : BuildReq) : 50 ≤ clampTarget req := by
  unfold clampTarget
  have h : (50 : Int) ≤ max 50 (min 20000 req.target) := le_max_left _ _
  omega

theorem effTarget_pos (req : BuildReq) (existing : List (List Char × Json)) :
    1 ≤ effTarget req existing := by
  unfold effTarget
  by_cases h : modeOf req = "add".data
  · rw [if_pos h]
    have := clampChunk_ge req
    omega
  · rw [if_neg h]
    have := clampTarget_ge req
    omega

theorem buildLoop_raising (lang : List Char) (version : Int) (target : Nat)
    (fuel : Nat) (st : LoopState) (hfuel : 1 ≤ fuel)
    (hlt : st.items.length < target) :
    buildLoop raisingGen lang version target fuel st =
      LoopRes.err PyErr.typeError
        { st with rounds := st.rounds + 1, calls := st.calls + 1 } := by
  obtain ⟨m, rfl⟩ : ∃ m, fuel = m + 1 := ⟨fuel - 1, by omega⟩
  simp only [buildLoop]
  rw [if_pos hlt, doRound_raising]

/-- C1: `call_gemini`'s signature declares only `messages` and `max_tokens`,
so the keyword argument set `{system_instruction, max_tokens}` used by
`gemini_generate_json` does not bind and every generation call raises
`TypeError`.  Consequently, for every request that passes input validation,
the loop never completes a round: the build either aborts with the
`TypeError` on its first round (when the pool is below target) or skips the
loop entirely, and nothing beyond the cleaned pre-existing pool (clamped to
target) is ever persisted. -/
theorem call_gemini_mismatch_spec (req : BuildReq) (existing : List (List Char × Json))
    (hval : LANGS.contains (langOf req) = true) :
    callBinds call_gemini_params gemini_generate_json_kwargs = false ∧
    (build_lang raisingGen req existing).flags = [] ∧
    ((build_lang raisingGen req existing).initItems.length <
        (build_lang raisingGen req existing).targetEff →
      (build_lang raisingGen req existing).result = Except.error PyErr.typeError) ∧
    (∀ p ∈ (build_lang raisingGen req existing).persists,
      p.items = (build_lang raisingGen req existing).initItems.take
        (build_lang raisingGen req existing).targetEff) := by
  refine ⟨by decide, ?_⟩
  unfold build_lang
  rw [if_pos hval]
  by_cases hlt : (initPool existing).1.length < effTarget req existing
  · rw [buildLoop_raising _ _ _ _ _ (clampRounds_pos req) (by simpa using hlt)]
    refine ⟨rfl, fun _ => rfl, ?_⟩
    intro p hp
    simp at hp
  · have hok : buildLoop raisingGen (langOf req) req.version (effTarget req existing)
        (clampRounds req) ⟨(initPool existing).1, (initPool existing).2, 0, 0, [], 0, [], []⟩ =
        LoopRes.ok ⟨(initPool existing).1, (initPool existing).2, 0, 0, [], 0, [], []⟩ := by
      obtain ⟨m, hm⟩ : ∃ m, clampRounds req = m + 1 :=
        ⟨clampRounds req - 1, by have := clampRounds_pos req; omega⟩
      rw [hm]
      simp only [buildLoop]
      rw [if_neg (by simpa using hlt)]
    rw [hok]
    dsimp only
    have h0 : ¬((initPool existing).1.length = 0) := by
      have := effTarget_pos req existing
      omega
    rw [if_neg (by simpa using h0)]
    refine ⟨rfl, ?_, ?_⟩
    · intro hcon
      exact absurd (by simpa using hcon) hlt
    · intro p hp
      simp only [List.nil_append, List.mem_singleton] at hp
      subst hp
      rfl

/-- Witness for C1 at a concrete validated request with an empty stored pool:
the keyword set does not bind and the endpoint aborts with the `TypeError`. -/
theorem call_gemini_mismatch_spec_witness :
    callBinds call_gemini_params gemini_generate_json_kwargs = false ∧
    (build_lang raisingGen ⟨"en".data, 1000, 120, 60, 1, "fill".data⟩
        [("items".data, Json.arr [])]).result = Except.error PyErr.typeError := by
  have h := call_gemini_mismatch_spec ⟨"en".data, 1000, 120, 60, 1, "fill".data⟩
    [("items".data, Json.arr [])] (by decide)
  exact ⟨h.1, h.2.2.1 (by decide)⟩

/-- The state relation along any outcome of one round, in the form the loop
invariants consume. -/
theorem doRound_state_rel (gen : Nat → Except PyErr (List Char)) (lang : List Char)
    (version : Int) (target : Nat) (s s' : LoopState)
    (h : (∃ e, doRound gen lang version target s = RoundStep.fail e s') ∨
         doRound gen lang version target s = RoundStep.stop s' ∨
         doRound gen lang version target s = RoundStep.next s') :
    (∃ tail, s'.items = s.items ++ tail) ∧
    (s'.sizes = s.sizes ∨ s'.sizes = s.sizes ++ [s'.items.length]) ∧
    (s'.persists = s.persists ∨
      s'.persists = s.persists ++ [⟨lang, version, s'.items.take target⟩]) ∧
    (s'.items ≠ s.items →
      s'.persists = s.persists ++ [⟨lang, version, s'.items.take target⟩]) ∧
    (∃ batch added, (batch = [] ∨ ∃ raw, batch = tryParse raw) ∧
       mergeBatch s.items s.seen batch = (s'.items, s'.seen, added)) := by
  rcases doRound_spec gen lang version target s with
    ⟨e, s2, hf, hi, hs, hp, _, hsz, _, _⟩ | ⟨s2, hout2, _, hsz, hpf, himp, hbm⟩
  · have hs2 : s' = s2 := by
      rcases h with ⟨e', hf'⟩ | hst | hnx
      · rw [hf] at hf'
        cases hf'
        rfl
      · rw [hf] at hst
        cases hst
      · rw [hf] at hnx
        cases hnx
    subst hs2
    refine ⟨⟨[], by rw [hi, List.append_nil]⟩, Or.inl hsz, Or.inl hp,
      fun hne => absurd hi hne, [], 0, Or.inl rfl, ?_⟩
    rw [hi, hs]
    rfl
  · have hs2 : s' = s2 := by
      rcases h with ⟨e', hf'⟩ | hst | hnx
      · rcases hout2 with ⟨heq, _⟩ | heq
        · rw [heq] at hf'
          cases hf'
        · rw [heq] at hf'
          cases hf'
      · rcases hout2 with ⟨heq, _⟩ | heq
        · rw [heq] at hst
          cases hst
          rfl
        · rw [heq] at hst
          cases hst
      · rcases hout2 with ⟨heq, _⟩ | heq
        · rw [heq] at hnx
          cases hnx
        · rw [heq] at hnx
          cases hnx
          rfl
    subst hs2
    rcases hbm with ⟨batch, added, hfrom, hmb⟩
    refine ⟨?_, Or.inr hsz, ?_, himp, batch, added, hfrom, hmb⟩
    · have := mergeFold_append batch (s.items, s.seen, 0)
      rcases this with ⟨tail, htail⟩
      refine ⟨tail, ?_⟩
      have : (mergeBatch s.items s.seen batch).1 = s.items ++ tail := htail
      rw [hmb] at this
      exact this
    · rcases hpf with ⟨h1, _⟩ | ⟨h1, _⟩
      · exact Or.inl h1
      · exact Or.inr h1

/-! ### Concrete oracles and fixtures used by witnesses and counterexamples -/

/-- A response whose extraction and validation succeed with one record. -/
def goodOne : List Char :=
  ['[', Char.ofNat 123] ++ "\"w\":\"x\",\"tr\":\"y\",\"pos\":\"n\"".data ++
    [Char.ofNat 125, ']']

/-- Four unparseable responses, then always the same good record. -/
def genRetryThenGood : Nat → Except PyErr (List Char) := fun i =>
  if i < 4 then Except.ok ("garbage".data) else Except.ok goodOne

/-- One good record on the fifth call only, garbage otherwise. -/
def genGoodAtFive : Nat → Except PyErr (List Char) := fun i =>
  if i = 4 then Except.ok goodOne else Except.ok ("garbage".data)

/-- Only unparseable responses. -/
def genGarbage : Nat → Except PyErr (List Char) := fun _ => Except.ok ("garbage".data)

/-- A validated default request. -/
def reqEn : BuildReq := ⟨"en".data, 1000, 120, 60, 1, "fill".data⟩

/-- A stored document with an empty pool. -/
def exEmpty : List (List Char × Json) := [("items".data, Json.arr [])]

/-- A stored document holding one record whose `pos`/`lvl` are outside the
enums. -/
def exBadPos : List (List Char × Json) :=
  [("items".data, Json.arr [Json.obj [("w".data, Json.str ['a']),
    ("tr".data, Json.str ['b']), ("pos".data, Json.str "xx".data),
    ("lvl".data, Json.str ['z'])]])]

theorem genRetryThenGood_ok : ∀ n, (genRetryThenGood n).isOk = true := by
  intro n
  unfold genRetryThenGood
  by_cases h : n < 4 <;> simp only [h, if_true, if_false, reduceIte] <;> rfl

theorem genGoodAtFive_ok : ∀ n, (genGoodAtFive n).isOk = true := by
  intro n
  unfold genGoodAtFive
  by_cases h : n = 4 <;> simp only [h, if_true, if_false, reduceIte] <;> rfl

theorem genGarbage_ok : ∀ n, (genGarbage n).isOk = true := by
  intro n
  rfl

/-- C5: a validated build under a never-raising generator that ends with a
non-empty pool smaller than the effective target returns a successful
response whose `total` is exactly the pool size (not an error), and such an
exit can only come from exhausting `max_rounds` or from the 5-consecutive-
no-progress stop. -/
theorem partial_progress_success (gen : Nat → Except PyErr (List Char)) (req : BuildReq)
    (existing : List (List Char × Json))
    (hval : LANGS.contains (langOf req) = true)
    (hgen : ∀ n, (gen n).isOk = true)
    (h0 : 0 < (build_lang gen req existing).finalItems.length)
    (hlt : (build_lang gen req existing).finalItems.length <
        (build_lang gen req existing).targetEff) :
    (build_lang gen req existing).result =
      Except.ok ⟨langOf req, (build_lang gen req existing).targetEff,
        (build_lang gen req existing).finalItems.length⟩ ∧
    ((build_lang gen req existing).rounds = clampRounds req ∨
      5 ≤ (build_lang gen req existing).noProgress) := by
  obtain ⟨st, hok⟩ := buildLoop_ok gen (langOf req) req.version (effTarget req existing)
    hgen (clampRounds req) ⟨(initPool existing).1, (initPool existing).2, 0, 0, [], 0, [], []⟩
  by_cases h00 : st.items.length = 0
  · exfalso
    have hfi : (build_lang gen req existing).finalItems = st.items := by
      unfold build_lang
      rw [if_pos hval, hok]
      dsimp only
      rw [if_pos h00]
    rw [hfi] at h0
    omega
  · have hb : build_lang gen req existing =
        ⟨Except.ok ⟨langOf req, effTarget req existing,
            min st.items.length (effTarget req existing)⟩,
          st.persists ++ [⟨langOf req, req.version, st.items.take (effTarget req existing)⟩],
          st.rounds, st.flags, st.sizes, st.items, (initPool existing).1,
          effTarget req existing, st.noProgress⟩ := by
      unfold build_lang
      rw [if_pos hval, hok]
      dsimp only
      rw [if_neg h00]
    rw [hb] at h0 hlt ⊢
    dsimp only at h0 hlt ⊢
    constructor
    · rw [Nat.min_eq_left (Nat.le_of_lt hlt)]
    · rcases buildLoop_exit gen (langOf req) req.version (effTarget req existing)
        (clampRounds req) _ st hok with h1 | h1 | h1
      · omega
      · left
        simpa using h1
      · right
        exact h1

/-- Witness for C5: under `genRetryThenGood` the build accepts one record,
then stops after five no-progress rounds, and reports success with
`total = 1 < 1000`. -/
theorem partial_progress_success_witness :
    (build_lang genRetryThenGood reqEn exEmpty).result =
      Except.ok ⟨"en".data, 1000, 1⟩ := by
  have h := partial_progress_success genRetryThenGood reqEn exEmpty (by decide)
    genRetryThenGood_ok (by decide) (by decide)
  rw [h.1]
  decide

/-- C4 (amended): under a never-raising generator, a validated build fails
with the no-data error exactly when the pool is empty at loop exit — which
happens only after the 5-consecutive-no-progress stop or the round budget,
never "at the point" the first round exhausts its retries; and since the pool
only grows, an empty exit pool means every completed round (the first
included) left the pool empty. -/
theorem noData_iff_empty_exit (gen : Nat → Except PyErr (List Char)) (req : BuildReq)
    (existing : List (List Char × Json))
    (hval : LANGS.contains (langOf req) = true)
    (hgen : ∀ n, (gen n).isOk = true) :
    ((build_lang gen req existing).result = Except.error (PyErr.http 500 noDataMsg) ↔
      (build_lang gen req existing).finalItems = []) ∧
    ((build_lang gen req existing).finalItems = [] →
      (build_lang gen req existing).sizes.all (fun n => n == 0) = true) := by
  obtain ⟨st, hok⟩ := buildLoop_ok gen (langOf req) req.version (effTarget req existing)
    hgen (clampRounds req) ⟨(initPool existing).1, (initPool existing).2, 0, 0, [], 0, [], []⟩
  have hsizes : ∀ n ∈ st.sizes, n ≤ st.items.length := by
    have hinv := buildLoop_inv gen (langOf req) req.version (effTarget req existing)
      (fun s => ∀ n ∈ s.sizes, n ≤ s.items.length)
      (by
        intro s s' hout hP n hn
        obtain ⟨⟨tail, hitems⟩, hsz, _, _, _⟩ :=
          doRound_state_rel gen (langOf req) req.version (effTarget req existing) s s' hout
        rcases hsz with hsz | hsz
        · have := hP n (by rw [← hsz]; exact hn)
          rw [hitems, List.length_append]
          omega
        · rw [hsz] at hn
          rcases List.mem_append.1 hn with hn | hn
          · have := hP n hn
            rw [hitems, List.length_append]
            omega
          · simp only [List.mem_singleton] at hn
            omega)
      (clampRounds req) ⟨(initPool existing).1, (initPool existing).2, 0, 0, [], 0, [], []⟩
      (by intro n hn; cases hn)
    rw [hok] at hinv
    exact hinv
  by_cases h00 : st.items.length = 0
  · have hb : build_lang gen req existing =
        ⟨Except.error (PyErr.http 500 noDataMsg), st.persists, st.rounds,
          st.flags, st.sizes, st.items, (initPool existing).1, effTarget req existing,
          st.noProgress⟩ := by
      unfold build_lang
      rw [if_pos hval, hok]
      dsimp only
      rw [if_pos h00]
    rw [hb]
    dsimp only
    constructor
    · constructor
      · intro _
        exact List.length_eq_zero.1 h00
      · intro _
        rfl
    · intro _
      rw [List.all_eq_true]
      intro n hn
      have := hsizes n hn
      simp only [beq_iff_eq]
      omega
  · have hb : build_lang gen req existing =
        ⟨Except.ok ⟨langOf req, effTarget req existing,
            min st.items.length (effTarget req existing)⟩,
          st.persists ++ [⟨langOf req, req.version, st.items.take (effTarget req existing)⟩],
          st.rounds, st.flags, st.sizes, st.items, (initPool existing).1,
          effTarget req existing, st.noProgress⟩ := by
      unfold build_lang
      rw [if_pos hval, hok]
      dsimp only
      rw [if_neg h00]
    rw [hb]
    dsimp only
    constructor
    · constructor
      · intro h
        cases h
      · intro h
        rw [h] at h00
        exact absurd rfl h00
    · intro h
      rw [h] at h00
      exact absurd rfl h00

/-- C4 counterexample: with `genGoodAtFive` the first round exhausts its four
calls with nothing parseable and leaves the pool empty (first recorded size
0), yet the build does not fail there: round 2 succeeds and the endpoint
returns a successful response. -/
theorem first_round_empty_not_fatal :
    (build_lang genGoodAtFive reqEn exEmpty).sizes.head? = some 0 ∧
    (build_lang genGoodAtFive reqEn exEmpty).flags.head? = some false ∧
    (build_lang genGoodAtFive reqEn exEmpty).result =
      Except.ok ⟨"en".data, 1000, 1⟩ := by
  refine ⟨by decide, by decide, by decide⟩

/-- Witness for C4: an all-garbage generator leaves the pool empty through
every round, and the build then fails with the no-data error. -/
theorem noData_iff_empty_exit_witness :
    (build_lang genGarbage reqEn exEmpty).result =
      Except.error (PyErr.http 500 noDataMsg) := by
  have h := noData_iff_empty_exit genGarbage reqEn exEmpty (by decide) genGarbage_ok
  exact h.1.2 (by decide)

/-! ### Durability of the persisted document (C3) -/

/-- The store reflects the pool: either nothing was written yet and the pool
is still the loaded one, or the most recent write is exactly the current pool
clamped to target. -/
def storeInv (init : List PoolItem) (lang : List Char) (version : Int) (target : Nat)
    (st : LoopState) : Prop :=
  (st.persists = [] ∧ st.items = init) ∨
  st.persists.getLast? = some ⟨lang, version, st.items.take target⟩

/-- C3 (amended): every round that changes the pool uploads the new pool
clamped to target before the next round starts, and rounds that skip the
upload (the empty-batch `continue` and the 5-no-progress `break`) leave the
pool unchanged — so at every round boundary, and at the end of every
validated run (also a run aborted by an exception), the most recent persisted
document is exactly the current pool clamped to target (or nothing was
persisted and the pool is still the loaded one).  The code does not persist
after literally every round. -/
theorem durability_spec :
    (∀ (gen : Nat → Except PyErr (List Char)) (lang : List Char) (version : Int)
       (target : Nat) (init : List PoolItem) (s s' : LoopState),
       ((∃ e, doRound gen lang version target s = RoundStep.fail e s') ∨
        doRound gen lang version target s = RoundStep.stop s' ∨
        doRound gen lang version target s = RoundStep.next s') →
       (s'.items ≠ s.items →
         s'.persists = s.persists ++ [⟨lang, version, s'.items.take target⟩]) ∧
       (storeInv init lang version target s → storeInv init lang version target s')) ∧
    (∀ (gen : Nat → Except PyErr (List Char)) (req : BuildReq)
       (existing : List (List Char × Json)), LANGS.contains (langOf req) = true →
       ((build_lang gen req existing).persists = [] ∧
         (build_lang gen req existing).finalItems = (initPool existing).1) ∨
       (build_lang gen req existing).persists.getLast? =
         some ⟨langOf req, req.version,
           (build_lang gen req existing).finalItems.take (effTarget req existing)⟩) := by
  have hstep : ∀ (gen : Nat → Except PyErr (List Char)) (lang : List Char) (version : Int)
      (target : Nat) (init : List PoolItem) (s s' : LoopState),
      ((∃ e, doRound gen lang version target s = RoundStep.fail e s') ∨
       doRound gen lang version target s = RoundStep.stop s' ∨
       doRound gen lang version target s = RoundStep.next s') →
      (s'.items ≠ s.items →
        s'.persists = s.persists ++ [⟨lang, version, s'.items.take target⟩]) ∧
      (storeInv init lang version target s → storeInv init lang version target s') := by
    intro gen lang version target init s s' hout
    obtain ⟨_, _, hpf, himp, _⟩ := doRound_state_rel gen lang version target s s' hout
    refine ⟨himp, ?_⟩
    intro hinv
    rcases hpf with hpf | hpf
    · have hieq : s'.items = s.items := by
        by_contra hne
        have := himp hne
        rw [hpf] at this
        have hlen := congrArg List.length this
        simp at hlen
      rcases hinv with ⟨h1, h2⟩ | h1
      · exact Or.inl ⟨by rw [hpf, h1], by rw [hieq, h2]⟩
      · refine Or.inr ?_
        rw [hpf, hieq]
        exact h1
    · refine Or.inr ?_
      rw [hpf, List.getLast?_concat]
  refine ⟨hstep, ?_⟩
  intro gen req existing hval
  have hloop := buildLoop_inv gen (langOf req) req.version (effTarget req existing)
    (storeInv (initPool existing).1 (langOf req) req.version (effTarget req existing))
    (fun s s' hout =>
      (hstep gen (langOf req) req.version (effTarget req existing)
        (initPool existing).1 s s' hout).2)
    (clampRounds req) ⟨(initPool existing).1, (initPool existing).2, 0, 0, [], 0, [], []⟩
    (Or.inl ⟨rfl, rfl⟩)
  unfold build_lang
  rw [if_pos hval]
  cases hres : buildLoop gen (langOf req) req.version (effTarget req existing)
      (clampRounds req) ⟨(initPool existing).1, (initPool existing).2, 0, 0, [], 0, [], []⟩ with
  | err e st =>
    rw [hres] at hloop
    exact hloop
  | ok st =>
    rw [hres] at hloop
    dsimp only
    by_cases h00 : st.items.length = 0
    · rw [if_pos h00]
      exact hloop
    · rw [if_neg h00]
      dsimp only
      exact Or.inr (List.getLast?_concat _)

/-- C3 counterexample: under `genRetryThenGood` the build completes 7 rounds
but uploads only 6 documents (5 in-loop, 1 final); the first round — whose
batch stayed empty through all retries — skipped the per-round upload
(first per-round persist flag `false`), so the pool is not persisted after
every round. -/
theorem persist_not_after_every_round :
    (build_lang genRetryThenGood reqEn exEmpty).rounds = 7 ∧
    (build_lang genRetryThenGood reqEn exEmpty).flags =
      [false, true, true, true, true, true, false] ∧
    (build_lang genRetryThenGood reqEn exEmpty).persists.length = 6 := by
  refine ⟨by decide, by decide, by decide⟩

/-- Witness for C3 at a concrete run: the most recent persisted document of
the finished build is exactly its final pool clamped to target. -/
theorem durability_spec_witness :
    (build_lang genRetryThenGood reqEn exEmpty).persists.getLast? =
      some ⟨langOf reqEn, reqEn.version,
        (build_lang genRetryThenGood reqEn exEmpty).finalItems.take
          (effTarget reqEn exEmpty)⟩ := by
  rcases (durability_spec).2 genRetryThenGood reqEn exEmpty (by decide) with ⟨hp, _⟩ | hp
  · exact absurd hp (by decide)
  · exact hp

/-! ### Uniqueness of dedup keys (C6) -/

/-- No two entries of the pool share a dedup key. -/
def keysDisjoint (items : List PoolItem) : Prop :=
  items.Pairwise (fun x y => norm x.w ≠ norm y.w)

theorem mergeFold_inv :
    ∀ (batch : List PoolItem) (acc : List PoolItem × List (List Char) × Nat),
      keysDisjoint acc.1 → (∀ x ∈ acc.1, acc.2.1.contains (norm x.w) = true) →
      keysDisjoint (batch.foldl mergeStep acc).1 ∧
        (∀ x ∈ (batch.foldl mergeStep acc).1,
          (batch.foldl mergeStep acc).2.1.contains (norm x.w) = true)
  | [], acc, hdis, hmem => ⟨hdis, hmem⟩
  | it :: rest, acc, hdis, hmem => by
    rcases mergeStep_cases acc it with hc | ⟨hc, hfresh, _⟩
    · rw [List.foldl_cons, hc]
      exact mergeFold_inv rest acc hdis hmem
    · rw [List.foldl_cons, hc]
      refine mergeFold_inv rest (acc.1 ++ [it], norm it.w :: acc.2.1, acc.2.2 + 1) ?_ ?_
      · refine List.pairwise_append.2 ⟨hdis, List.pairwise_singleton _ _, ?_⟩
        intro x hx y hy
        simp only [List.mem_singleton] at hy
        subst hy
        intro hkey
        have := hmem x hx
        rw [hkey] at this
        rw [this] at hfresh
        cases hfresh
      · intro x hx
        rcases List.mem_append.1 hx with hx | hx
        · have := hmem x hx
          simp only [List.contains_cons, this, Bool.or_true]
        · simp only [List.mem_singleton] at hx
          subst hx
          simp [List.contains_cons]

theorem cleanExisting_spec :
    ∀ (items : List Json) (seen : List (List Char)),
      (∀ x ∈ (cleanExisting items seen).1,
        (cleanExisting items seen).2.contains (norm x.w) = true ∧
        seen.contains (norm x.w) = false ∧ norm x.w ≠ []) ∧
      keysDisjoint (cleanExisting items seen).1 ∧
      (∀ k, seen.contains k = true → (cleanExisting items seen).2.contains k = true)
  | [], seen => by
    refine ⟨fun x hx => absurd hx (List.not_mem_nil x), List.Pairwise.nil, fun k hk => hk⟩
  | it :: rest, seen => by
    match it with
    | Json.null | Json.bool _ | Json.num _ | Json.str _ | Json.arr _ =>
      exact cleanExisting_spec rest seen
    | Json.obj ms =>
      by_cases h1 : wOf ms = [] ∨ trOf ms = []
      · simp only [cleanExisting, if_pos h1]
        exact cleanExisting_spec rest seen
      · by_cases h2 : norm (wOf ms) = [] ∨ seen.contains (norm (wOf ms)) = true
        · simp only [cleanExisting, if_neg h1, if_pos h2]
          exact cleanExisting_spec rest seen
        · push_neg at h2
          have h2' : ¬(norm (wOf ms) = [] ∨ seen.contains (norm (wOf ms)) = true) := by
            push_neg
            exact h2
          simp only [cleanExisting, if_neg h1, if_neg h2']
          rcases hrec : cleanExisting rest (norm (wOf ms) :: seen) with ⟨cl, fs⟩
          obtain ⟨hmem, hdis, hsub⟩ := cleanExisting_spec rest (norm (wOf ms) :: seen)
          rw [hrec] at hmem hdis hsub
          dsimp only at hmem hdis hsub ⊢
          refine ⟨?_, ?_, ?_⟩
          · intro x hx
            rcases List.mem_cons.1 hx with hx | hx
            · subst hx
              dsimp only
              refine ⟨hsub _ (by simp [List.contains_cons]), ?_, ?_⟩
              · simpa using h2.2
              · exact h2.1
            · obtain ⟨ha, hb, hc⟩ := hmem x hx
              refine ⟨ha, ?_, hc⟩
              have : (norm (wOf ms) :: seen).contains (norm x.w) = false := hb
              simp only [List.contains_cons, Bool.or_eq_false_iff] at this
              exact this.2
          · refine List.Pairwise.cons ?_ hdis
            intro y hy
            obtain ⟨_, hb, _⟩ := hmem y hy
            simp only [List.contains_cons, Bool.or_eq_false_iff, beq_iff_eq] at hb
            dsimp only
            intro hkey
            exact absurd hkey.symm (by simpa using hb.1)
          · intro k hk
            exact hsub k (by rw [List.contains_cons, hk, Bool.or_true])

/-- C6: merging a candidate whose dedup key is already in the key set changes
nothing — not the pool's length, order, or contents — and as a consequence
the pool of any build run never holds two entries with the same dedup key. -/
theorem merge_idempotent_spec :
    (∀ (acc : List PoolItem × List (List Char) × Nat) (it : PoolItem),
       acc.2.1.contains (norm it.w) = true → mergeStep acc it = acc) ∧
    (∀ (gen : Nat → Except PyErr (List Char)) (req : BuildReq)
       (existing : List (List Char × Json)),
       keysDisjoint (build_lang gen req existing).finalItems) := by
  constructor
  · intro acc it hk
    unfold mergeStep
    rw [if_pos (Or.inr hk)]
  · intro gen req existing
    by_cases hval : LANGS.contains (langOf req) = true
    · have hinit := cleanExisting_spec (existingItems existing) []
      have hloop := buildLoop_inv gen (langOf req) req.version (effTarget req existing)
        (fun s => keysDisjoint s.items ∧
          ∀ x ∈ s.items, s.seen.contains (norm x.w) = true)
        (by
          intro s s' hout ⟨hdis, hmem⟩
          obtain ⟨_, _, _, _, batch, added, _, hmb⟩ :=
            doRound_state_rel gen (langOf req) req.version (effTarget req existing) s s' hout
          obtain ⟨hd, hm⟩ := mergeFold_inv batch (s.items, s.seen, 0) hdis hmem
          have h1 : (batch.foldl mergeStep (s.items, s.seen, 0)).1 = s'.items := by
            rw [show batch.foldl mergeStep (s.items, s.seen, 0) = mergeBatch s.items s.seen batch from rfl, hmb]
          have h2 : (batch.foldl mergeStep (s.items, s.seen, 0)).2.1 = s'.seen := by
            rw [show batch.foldl mergeStep (s.items, s.seen, 0) = mergeBatch s.items s.seen batch from rfl, hmb]
          rw [h1] at hd
          rw [h1, h2] at hm
          exact ⟨hd, hm⟩)
        (clampRounds req) ⟨(initPool existing).1, (initPool existing).2, 0, 0, [], 0, [], []⟩
        ⟨hinit.2.1, fun x hx => (hinit.1 x hx).1⟩
      have hfi : (build_lang gen req existing).finalItems =
          ((buildLoop gen (langOf req) req.version (effTarget req existing)
            (clampRounds req)
            ⟨(initPool existing).1, (initPool existing).2, 0, 0, [], 0, [], []⟩).state).items := by
        unfold build_lang
        rw [if_pos hval]
        cases buildLoop gen (langOf req) req.version (effTarget req existing)
            (clampRounds req)
            ⟨(initPool existing).1, (initPool existing).2, 0, 0, [], 0, [], []⟩ with
        | err e st => rfl
        | ok st =>
          dsimp only [LoopRes.state]
          by_cases h0 : st.items.length = 0
          · rw [if_pos h0]
          · rw [if_neg h0]
      rw [hfi]
      exact hloop.1
    · have : build_lang gen req existing =
          ⟨Except.error (PyErr.http 400 "Unsupported lang"), [], 0, [], [], [], [], 0, 0⟩ := by
        unfold build_lang
        rw [if_neg hval]
      rw [this]
      exact List.Pairwise.nil

/-- Witness for C6: re-merging a record whose key `norm "x" = "x"` is already
seen leaves the pool triple untouched. -/
theorem merge_idempotent_spec_witness :
    mergeStep ([⟨['x'], ['y'], "noun".data, "B1".data⟩], ["x".data], 1)
        ⟨['x'], ['z'], "verb".data, "A1".data⟩ =
      ([⟨['x'], ['y'], "noun".data, "B1".data⟩], ["x".data], 1) ∧
    keysDisjoint (build_lang genRetryThenGood reqEn exEmpty).finalItems := by
  refine ⟨merge_idempotent_spec.1 _ _ (by decide), merge_idempotent_spec.2 _ _ _⟩

/-! ### Record shape invariants (C7) -/

theorem dropWhile_eq_self_of_head (p : Char → Bool) (l : List Char)
    (h : ∀ a, l.head? = some a → p a = false) : l.dropWhile p = l := by
  cases l with
  | nil => rfl
  | cons c cs =>
    rw [List.dropWhile_cons, if_neg]
    simp [h c rfl]

theorem pyStrip_noTrail (l : List Char) :
    ∀ a, (pyStrip l).reverse.head? = some a → isWS a = false := by
  intro a ha
  unfold pyStrip at ha
  rw [List.reverse_reverse] at ha
  have := List.head?_dropWhile_not isWS (l.dropWhile isWS).reverse
  rw [ha] at this
  simpa using this

theorem pyStrip_noLead (l : List Char) :
    ∀ a, (pyStrip l).head? = some a → isWS a = false := by
  intro a ha
  unfold pyStrip at ha
  rw [List.head?_reverse] at ha
  have hsuf := List.dropWhile_suffix (l := (l.dropWhile isWS).reverse) isWS
  have hne : (l.dropWhile isWS).reverse.dropWhile isWS ≠ [] := by
    intro h0
    rw [h0] at ha
    cases ha
  rcases hsuf with ⟨t, ht⟩
  rw [← List.getLast?_append_of_ne_nil t hne, ht, List.getLast?_reverse] at ha
  have := List.head?_dropWhile_not isWS l
  rw [ha] at this
  simpa using this

/-- `strip` is idempotent: a stripped string has no leading or trailing
whitespace left to remove. -/
theorem pyStrip_idem (l : List Char) : pyStrip (pyStrip l) = pyStrip l := by
  have h1 : (pyStrip l).dropWhile isWS = pyStrip l :=
    dropWhile_eq_self_of_head isWS (pyStrip l) (pyStrip_noLead l)
  have h2 : (pyStrip l).reverse.dropWhile isWS = (pyStrip l).reverse :=
    dropWhile_eq_self_of_head isWS (pyStrip l).reverse (pyStrip_noTrail l)
  show (((pyStrip l).dropWhile isWS).reverse.dropWhile isWS).reverse = pyStrip l
  rw [h1, h2, List.reverse_reverse]

theorem sanitizeOne_invariant {it : Json} {x : PoolItem} (h : sanitizeOne it = some x) :
    x.w ≠ [] ∧ x.tr ≠ [] ∧ pyStrip x.w = x.w ∧ pyStrip x.tr = x.tr ∧
    POS_ALLOWED.contains x.pos = true ∧ LVL_ALLOWED.contains x.lvl = true := by
  match it with
  | Json.null | Json.bool _ | Json.num _ | Json.str _ | Json.arr _ => cases h
  | Json.obj ms =>
    by_cases h1 : wOf ms = [] ∨ trOf ms = []
    · simp only [sanitizeOne, if_pos h1] at h
      cases h
    · by_cases h2 : POS_ALLOWED.contains (coercePos (posOfCandidate ms)) = true
      · simp only [sanitizeOne, if_neg h1, if_pos h2] at h
        push_neg at h1
        cases h
        refine ⟨h1.1, h1.2, by apply pyStrip_idem, by apply pyStrip_idem, h2, ?_⟩
        by_cases h3 : LVL_ALLOWED.contains (lvlOfCandidate ms) = true
        · simp only [if_pos h3]
          exact h3
        · simp only [if_neg h3]
          decide
      · simp only [sanitizeOne, if_neg h1, if_neg h2] at h
        cases h

theorem mergeFold_mem :
    ∀ (batch : List PoolItem) (acc : List PoolItem × List (List Char) × Nat)
      (x : PoolItem), x ∈ (batch.foldl mergeStep acc).1 → x ∈ acc.1 ∨ x ∈ batch
  | [], acc, x, h => Or.inl h
  | it :: rest, acc, x, h => by
    rcases mergeStep_cases acc it with hc | ⟨hc, _, _⟩
    · rw [List.foldl_cons, hc] at h
      rcases mergeFold_mem rest acc x h with h | h
      · exact Or.inl h
      · exact Or.inr (List.mem_cons_of_mem _ h)
    · rw [List.foldl_cons, hc] at h
      rcases mergeFold_mem rest (acc.1 ++ [it], norm it.w :: acc.2.1, acc.2.2 + 1) x h with h | h
      · rcases List.mem_append.1 h with h | h
        · exact Or.inl h
        · simp only [List.mem_singleton] at h
          subst h
          exact Or.inr (List.mem_cons_self _ _)
      · exact Or.inr (List.mem_cons_of_mem _ h)

theorem posOfExisting_ne (ms : List (List Char × Json)) : posOfExisting ms ≠ [] := by
  unfold posOfExisting
  by_cases h : pyLower (pyStrip (pyStr (objGet ms ("pos".data) (Json.str "noun".data)))) = []
  · rw [if_pos h]
    decide
  · rw [if_neg h]
    exact h

theorem lvlOfExisting_ne (ms : List (List Char × Json)) : lvlOfExisting ms ≠ [] := by
  unfold lvlOfExisting
  by_cases h : pyUpper (pyStrip (pyStr (objGet ms ("lvl".data) (Json.str "B1".data)))) = []
  · rw [if_pos h]
    decide
  · rw [if_neg h]
    exact h

theorem cleanExisting_fields :
    ∀ (items : List Json) (seen : List (List Char)) (x : PoolItem),
      x ∈ (cleanExisting items seen).1 →
      x.w ≠ [] ∧ x.tr ≠ [] ∧ pyStrip x.w = x.w ∧ pyStrip x.tr = x.tr ∧
      x.pos ≠ [] ∧ x.lvl ≠ []
  | [], _, x, hx => absurd hx (List.not_mem_nil x)
  | it :: rest, seen, x, hx => by
    match it with
    | Json.null | Json.bool _ | Json.num _ | Json.str _ | Json.arr _ =>
      exact cleanExisting_fields rest seen x hx
    | Json.obj ms =>
      by_cases h1 : wOf ms = [] ∨ trOf ms = []
      · simp only [cleanExisting, if_pos h1] at hx
        exact cleanExisting_fields rest seen x hx
      · by_cases h2 : norm (wOf ms) = [] ∨ seen.contains (norm (wOf ms)) = true
        · simp only [cleanExisting, if_neg h1, if_pos h2] at hx
          exact cleanExisting_fields rest seen x hx
        · simp only [cleanExisting, if_neg h1, if_neg h2] at hx
          rcases hrec : cleanExisting rest (norm (wOf ms) :: seen) with ⟨cl, fs⟩
          rw [hrec] at hx
          dsimp only at hx
          rcases List.mem_cons.1 hx with hx | hx
          · subst hx
            push_neg at h1
            exact ⟨h1.1, h1.2, by apply pyStrip_idem, by apply pyStrip_idem,
              posOfExisting_ne ms, lvlOfExisting_ne ms⟩
          · have := cleanExisting_fields rest (norm (wOf ms) :: seen) x
            rw [hrec] at this
            exact this hx

/-- C7 (amended): records accepted through the generation-side validator
carry non-empty already-trimmed `surface` and `gloss` and enum-valid
`category` and `level`; records carried over from a previously persisted
document are guaranteed only non-empty trimmed `surface`/`gloss` and
non-empty `pos`/`lvl` — their `pos`/`lvl` are case-normalized and defaulted
when missing, but never validated against the enums; consequently every
record of any run's final pool has non-empty trimmed fields, while the enum
property can be broken by carried-over records. -/
theorem record_shape_spec :
    (∀ (arr : Json) (x : PoolItem), x ∈ sanitize_items arr →
       x.w ≠ [] ∧ x.tr ≠ [] ∧ pyStrip x.w = x.w ∧ pyStrip x.tr = x.tr ∧
       POS_ALLOWED.contains x.pos = true ∧ LVL_ALLOWED.contains x.lvl = true) ∧
    (∀ (items : List Json) (seen : List (List Char)) (x : PoolItem),
       x ∈ (cleanExisting items seen).1 →
       x.w ≠ [] ∧ x.tr ≠ [] ∧ pyStrip x.w = x.w ∧ pyStrip x.tr = x.tr ∧
       x.pos ≠ [] ∧ x.lvl ≠ []) ∧
    (∀ (gen : Nat → Except PyErr (List Char)) (req : BuildReq)
       (existing : List (List Char × Json)) (x : PoolItem),
       x ∈ (build_lang gen req existing).finalItems →
       x.w ≠ [] ∧ x.tr ≠ [] ∧ pyStrip x.w = x.w ∧ pyStrip x.tr = x.tr ∧
       x.pos ≠ [] ∧ x.lvl ≠ []) := by
  have hsan : ∀ (arr : Json) (x : PoolItem), x ∈ sanitize_items arr →
      x.w ≠ [] ∧ x.tr ≠ [] ∧ pyStrip x.w = x.w ∧ pyStrip x.tr = x.tr ∧
      POS_ALLOWED.contains x.pos = true ∧ LVL_ALLOWED.contains x.lvl = true := by
    intro arr x hx
    match arr with
    | Json.null | Json.bool _ | Json.num _ | Json.str _ | Json.obj _ =>
      exact absurd hx (List.not_mem_nil x)
    | Json.arr xs =>
      obtain ⟨a, _, ha⟩ := List.mem_filterMap.1 hx
      exact sanitizeOne_invariant ha
  refine ⟨hsan, cleanExisting_fields, ?_⟩
  intro gen req existing x hx
  by_cases hval : LANGS.contains (langOf req) = true
  · have hloop := buildLoop_inv gen (langOf req) req.version (effTarget req existing)
      (fun s => ∀ y ∈ s.items,
        y.w ≠ [] ∧ y.tr ≠ [] ∧ pyStrip y.w = y.w ∧ pyStrip y.tr = y.tr ∧
        y.pos ≠ [] ∧ y.lvl ≠ [])
      (by
        intro s s' hout hP y hy
        obtain ⟨_, _, _, _, batch, added, hfrom, hmb⟩ :=
          doRound_state_rel gen (langOf req) req.version (effTarget req existing) s s' hout
        have hmem : y ∈ s.items ∨ y ∈ batch := by
          refine mergeFold_mem batch (s.items, s.seen, 0) y ?_
          rw [show batch.foldl mergeStep (s.items, s.seen, 0) =
            mergeBatch s.items s.seen batch from rfl, hmb]
          exact hy
        rcases hmem with hmem | hmem
        · exact hP y hmem
        · rcases hfrom with hfrom | ⟨raw, hfrom⟩
          · subst hfrom
            cases hmem
          · subst hfrom
            unfold tryParse at hmem
            cases hext : extract_json_array raw with
            | error e =>
              rw [hext] at hmem
              cases hmem
            | ok arr =>
              rw [hext] at hmem
              obtain ⟨e1, e2, e3, e4, e5, e6⟩ := hsan arr y hmem
              refine ⟨e1, e2, e3, e4, ?_, ?_⟩
              · intro h0
                rw [h0] at e5
                cases e5
              · intro h0
                rw [h0] at e6
                cases e6)
      (clampRounds req) ⟨(initPool existing).1, (initPool existing).2, 0, 0, [], 0, [], []⟩
      (fun y hy => cleanExisting_fields (existingItems existing) [] y hy)
    have hfi : (build_lang gen req existing).finalItems =
        ((buildLoop gen (langOf req) req.version (effTarget req existing)
          (clampRounds req)
          ⟨(initPool existing).1, (initPool existing).2, 0, 0, [], 0, [], []⟩).state).items := by
      unfold build_lang
      rw [if_pos hval]
      cases buildLoop gen (langOf req) req.version (effTarget req existing)
          (clampRounds req)
          ⟨(initPool existing).1, (initPool existing).2, 0, 0, [], 0, [], []⟩ with
      | err e st => rfl
      | ok st =>
        dsimp only [LoopRes.state]
        by_cases h0 : st.items.length = 0
        · rw [if_pos h0]
        · rw [if_neg h0]
    rw [hfi] at hx
    exact hloop x hx
  · have : build_lang gen req existing =
        ⟨Except.error (PyErr.http 400 "Unsupported lang"), [], 0, [], [], [], [], 0, 0⟩ := by
      unfold build_lang
      rw [if_neg hval]
    rw [this] at hx
    cases hx

/-- C7 counterexample: a persisted record with `pos = "xx"` and `lvl = "z"`
is carried over unvalidated; the finished build's pool (and its successful
response) contain a record whose category and level are outside the enums. -/
theorem pool_record_enum_violation :
    (build_lang genGarbage reqEn exBadPos).result = Except.ok ⟨"en".data, 1000, 1⟩ ∧
    (build_lang genGarbage reqEn exBadPos).finalItems =
      [⟨['a'], ['b'], "xx".data, ['Z']⟩] ∧
    POS_ALLOWED.contains "xx".data = false ∧
    LVL_ALLOWED.contains ['Z'] = false := by
  refine ⟨by decide, by decide, by decide, by decide⟩

/-- Witness for C7 on concrete inputs: a sanitized candidate satisfies the
full invariant, and the carried-over bad record still has non-empty fields. -/
theorem record_shape_spec_witness :
    (POS_ALLOWED.contains (PoolItem.pos ⟨['a'], ['b'], "verb".data, "B1".data⟩) = true) ∧
    (PoolItem.pos ⟨['a'], ['b'], "xx".data, ['Z']⟩ ≠ []) := by
  constructor
  · exact (record_shape_spec.1 (Json.arr [Json.obj [("w".data, Json.str ['a']),
      ("tr".data, Json.str ['b']), ("pos".data, Json.str "verbs".data)]])
      ⟨['a'], ['b'], "verb".data, "B1".data⟩ (by decide)).2.2.2.2.1
  · exact (record_shape_spec.2.1 [Json.obj [("w".data, Json.str ['a']),
      ("tr".data, Json.str ['b']), ("pos".data, Json.str "xx".data),
      ("lvl".data, Json.str ['z'])]] []
      ⟨['a'], ['b'], "xx".data, ['Z']⟩ (by decide)).2.2.2.2.1

/-- C8: the validator's coercion and defaulting behaviour.  When the
lower-cased trimmed category is not an exact enum value: `n*` coerces to
`noun`, `v*` to `verb`, `ad*` other than exactly `"adj"` to `adv`, and a
remaining `a*` to `adj`; a candidate whose category still fails the enum
after coercion is rejected.  The stored level is the upper-cased trimmed
input when it lands in the enum (so `"b1"` is stored as `"B1"`) and defaults
to `"B1"` otherwise (so a missing level becomes `"B1"`).  A candidate whose
trimmed surface or gloss is empty is dropped by returning no record —
`sanitizeOne` is total, nothing is raised. -/
theorem sanitize_coercion_spec :
    (∀ p : List Char, POS_ALLOWED.contains p = false →
       ['n'].isPrefixOf p = true → coercePos p = "noun".data) ∧
    (∀ p : List Char, POS_ALLOWED.contains p = false →
       ['v'].isPrefixOf p = true → coercePos p = "verb".data) ∧
    (∀ p : List Char, POS_ALLOWED.contains p = false →
       ['a', 'd'].isPrefixOf p = true → p ≠ "adj".data → coercePos p = "adv".data) ∧
    (∀ p : List Char, POS_ALLOWED.contains p = false →
       ['a'].isPrefixOf p = true → ['a', 'd'].isPrefixOf p = false →
       coercePos p = "adj".data) ∧
    (∀ ms : List (List Char × Json),
       POS_ALLOWED.contains (coercePos (posOfCandidate ms)) = false →
       sanitizeOne (Json.obj ms) = none) ∧
    (∀ (ms : List (List Char × Json)) (x : PoolItem),
       sanitizeOne (Json.obj ms) = some x →
       x.lvl = (if LVL_ALLOWED.contains (lvlOfCandidate ms) then lvlOfCandidate ms
                else "B1".data)) ∧
    (∀ ms : List (List Char × Json), wOf ms = [] ∨ trOf ms = [] →
       sanitizeOne (Json.obj ms) = none) := by
  refine ⟨?_, ?_, ?_, ?_, ?_, ?_, ?_⟩
  · intro p hc hn
    unfold coercePos
    rw [if_neg (by rw [hc]; exact Bool.false_ne_true), if_pos hn]
  · intro p hc hv
    unfold coercePos
    rw [if_neg (by rw [hc]; exact Bool.false_ne_true)]
    cases p with
    | nil => cases hv
    | cons c cs =>
      simp only [List.isPrefixOf, Bool.and_eq_true, beq_iff_eq] at hv
      obtain ⟨rfl, -⟩ := hv
      rw [if_neg (by simp [List.isPrefixOf]), if_pos (by simp [List.isPrefixOf])]
  · intro p hc had hne
    unfold coercePos
    rw [if_neg (by rw [hc]; exact Bool.false_ne_true)]
    rcases p with _ | ⟨c, _ | ⟨d, cs⟩⟩
    · cases had
    · simp only [List.isPrefixOf, Bool.and_eq_true, beq_iff_eq] at had
      exact absurd had.2 (by simp [List.isPrefixOf])
    · simp only [List.isPrefixOf, Bool.and_eq_true, beq_iff_eq] at had
      obtain ⟨rfl, rfl, -⟩ := had
      rw [if_neg (by simp [List.isPrefixOf]), if_neg (by simp [List.isPrefixOf]),
        if_pos ⟨by simp [List.isPrefixOf], hne⟩]
  · intro p hc ha had
    unfold coercePos
    rw [if_neg (by rw [hc]; exact Bool.false_ne_true)]
    cases p with
    | nil => cases ha
    | cons c cs =>
      simp only [List.isPrefixOf, Bool.and_eq_true, beq_iff_eq] at ha
      obtain ⟨rfl, -⟩ := ha
      rw [if_neg (by simp [List.isPrefixOf]), if_neg (by simp [List.isPrefixOf]),
        if_neg (by rw [had]; simp), if_pos (by simp [List.isPrefixOf])]
  · intro ms hc
    by_cases h1 : wOf ms = [] ∨ trOf ms = []
    · simp only [sanitizeOne, if_pos h1]
    · simp only [sanitizeOne, if_neg h1, if_neg (show
        ¬POS_ALLOWED.contains (coercePos (posOfCandidate ms)) = true by
          rw [hc]; exact Bool.false_ne_true)]
  · intro ms x h
    by_cases h1 : wOf ms = [] ∨ trOf ms = []
    · simp only [sanitizeOne, if_pos h1] at h
      cases h
    · by_cases h2 : POS_ALLOWED.contains (coercePos (posOfCandidate ms)) = true
      · simp only [sanitizeOne, if_neg h1, if_pos h2] at h
        cases h
        rfl
      · simp only [sanitizeOne, if_neg h1, if_neg h2] at h
        cases h
  · intro ms h1
    simp only [sanitizeOne, if_pos h1]

/-- Witness for C8: `category="verbs"` is stored as `"verb"`, `level="b1"`
as `"B1"`, a candidate missing `level` gets `"B1"`, and a candidate with an
empty gloss is silently dropped. -/
theorem sanitize_coercion_spec_witness :
    coercePos ("verbs".data) = "verb".data ∧
    sanitize_items (Json.arr
      [Json.obj [("w".data, Json.str ['a']), ("tr".data, Json.str ['b']),
        ("pos".data, Json.str "verbs".data), ("lvl".data, Json.str "b1".data)],
       Json.obj [("w".data, Json.str ['c']), ("tr".data, Json.str ['d']),
        ("pos".data, Json.str ['n'])],
       Json.obj [("w".data, Json.str ['e']), ("tr".data, Json.str []),
        ("pos".data, Json.str ['n'])]]) =
      [⟨['a'], ['b'], "verb".data, "B1".data⟩,
       ⟨['c'], ['d'], "noun".data, "B1".data⟩] := by
  refine ⟨sanitize_coercion_spec.2.1 ("verbs".data) (by decide) (by decide), by decide⟩

end LangPool
